import Mathlib

/-!
Verification of the APIBridge MCP server core (the OpenAPI parser / workflow
synthesizer in `src/services/openapi-parser.js` and the tool / workflow
execution engine in `src/tools/tool-manager.js`) against its natural-language
specification.  JavaScript values are modelled by the inductive type `JsVal`;
JS objects are association lists that keep insertion order, mirroring the
enumeration order of `Object.entries` and of object spreads.  `undefined` is
modelled by absence (`Option` / missing key), not by a constructor.

The file is organised as: all definitions (the shallow embedding of the
JavaScript source), then all theorems.
-/

namespace APIBridge

/-- Model of a JavaScript (JSON-like) runtime value. -/
inductive JsVal where
  | vnull : JsVal
  | vbool : Bool → JsVal
  | vnum : Int → JsVal
  | vstr : String → JsVal
  | varr : List JsVal → JsVal
  | vobj : List (String × JsVal) → JsVal
  deriving Repr

mutual
/-- Decision procedure for equality of `JsVal` (the derive handler does not
support this nested inductive). -/
def JsVal.decEq : (a b : JsVal) → Decidable (a = b)
  | .vnull, .vnull => isTrue rfl
  | .vbool a, .vbool b =>
      if h : a = b then isTrue (by rw [h]) else isFalse (by simp [h])
  | .vnum a, .vnum b =>
      if h : a = b then isTrue (by rw [h]) else isFalse (by simp [h])
  | .vstr a, .vstr b =>
      if h : a = b then isTrue (by rw [h]) else isFalse (by simp [h])
  | .varr a, .varr b =>
      match JsVal.decEqList a b with
      | isTrue h => isTrue (by rw [h])
      | isFalse h => isFalse (by simp [h])
  | .vobj a, .vobj b =>
      match JsVal.decEqFields a b with
      | isTrue h => isTrue (by rw [h])
      | isFalse h => isFalse (by simp [h])
  | .vnull, .vbool _ | .vnull, .vnum _ | .vnull, .vstr _ | .vnull, .varr _
  | .vnull, .vobj _ | .vbool _, .vnull | .vbool _, .vnum _ | .vbool _, .vstr _
  | .vbool _, .varr _ | .vbool _, .vobj _ | .vnum _, .vnull | .vnum _, .vbool _
  | .vnum _, .vstr _ | .vnum _, .varr _ | .vnum _, .vobj _ | .vstr _, .vnull
  | .vstr _, .vbool _ | .vstr _, .vnum _ | .vstr _, .varr _ | .vstr _, .vobj _
  | .varr _, .vnull | .varr _, .vbool _ | .varr _, .vnum _ | .varr _, .vstr _
  | .varr _, .vobj _ | .vobj _, .vnull | .vobj _, .vbool _ | .vobj _, .vnum _
  | .vobj _, .vstr _ | .vobj _, .varr _ => isFalse (by simp)

def JsVal.decEqList : (a b : List JsVal) → Decidable (a = b)
  | [], [] => isTrue rfl
  | [], _ :: _ => isFalse (by simp)
  | _ :: _, [] => isFalse (by simp)
  | a :: as, b :: bs =>
      match JsVal.decEq a b, JsVal.decEqList as bs with
      | isTrue h1, isTrue h2 => isTrue (by rw [h1, h2])
      | isFalse h1, _ => isFalse (by simp [h1])
      | _, isFalse h2 => isFalse (by simp [h2])

def JsVal.decEqFields : (a b : List (String × JsVal)) → Decidable (a = b)
  | [], [] => isTrue rfl
  | [], _ :: _ => isFalse (by simp)
  | _ :: _, [] => isFalse (by simp)
  | (k, a) :: as, (k', b) :: bs =>
      match String.decEq k k', JsVal.decEq a b, JsVal.decEqFields as bs with
      | isTrue h1, isTrue h2, isTrue h3 => isTrue (by rw [h1, h2, h3])
      | isFalse h1, _, _ => isFalse (by simp [h1])
      | _, isFalse h2, _ => isFalse (by simp [h2])
      | _, _, isFalse h3 => isFalse (by simp [h3])
end

instance : DecidableEq JsVal := JsVal.decEq

open JsVal

/-- JavaScript truthiness (NaN does not arise in the integer model). -/
def jsTruthy : JsVal → Bool
  | .vnull => false
  | .vbool b => b
  | .vnum n => n != 0
  | .vstr s => s != ""
  | .varr _ => true
  | .vobj _ => true

/-- Property read on an object field list (JS `o[k]`; `none` = `undefined`). -/
def objGet : List (String × JsVal) → String → Option JsVal
  | [], _ => none
  | (k', v) :: rest, k => if k' = k then some v else objGet rest k

/-- Property write (JS assignment / spread override): updates the first
occurrence in place, otherwise appends — preserving JS key-insertion order. -/
def objSet : List (String × JsVal) → String → JsVal → List (String × JsVal)
  | [], k, v => [(k, v)]
  | (k', v') :: rest, k, v =>
      if k' = k then (k', v) :: rest else (k', v') :: objSet rest k v

/-- JS `Object.assign(base, ext)` / `{...base, ...ext}` field semantics. -/
def objAssign (base ext : List (String × JsVal)) : List (String × JsVal) :=
  ext.foldl (fun acc kv => objSet acc kv.1 kv.2) base

/-- JS `delete o[k]`. -/
def objDelete : List (String × JsVal) → String → List (String × JsVal)
  | [], _ => []
  | (k', v) :: rest, k =>
      if k' = k then objDelete rest k else (k', v) :: objDelete rest k

/-- Property read through a `JsVal` (`none` when the value is not an object:
reading a property of a primitive yields `undefined` in JS; the TypeError on
`null`/`undefined` bases is not modelled and never reached by the claims). -/
def jsGet : JsVal → String → Option JsVal
  | .vobj o, k => objGet o k
  | _, _ => none

/-- Truthiness of a possibly missing value (JS `undefined` is falsy). -/
def optTruthy : Option JsVal → Bool
  | some v => jsTruthy v
  | none => false

/-! ### String helpers

JS string primitives are modelled over the underlying character lists
(all inputs of interest are ASCII, so UTF-16 vs. scalar-value differences
do not arise). -/

/-- JS `s.endsWith(suffix)`. -/
def sEndsWith (s suffix : String) : Bool :=
  suffix.data.isSuffixOf s.data

/-- JS `s.startsWith(prefixStr)`. -/
def sStartsWith (s prefixStr : String) : Bool :=
  prefixStr.data.isPrefixOf s.data

/-- JS `s.slice(0, -n)` for `n ≤ s.length`. -/
def sDropRight (s : String) (n : Nat) : String :=
  String.mk (s.data.take (s.data.length - n))

/-- JS `s.slice(n)`. -/
def sDropLeft (s : String) (n : Nat) : String :=
  String.mk (s.data.drop n)

/-- JS `s.toLowerCase()` (ASCII range). -/
def sLower (s : String) : String :=
  String.mk (s.data.map Char.toLower)

/-- JS `s.toUpperCase()` (ASCII range). -/
def sUpper (s : String) : String :=
  String.mk (s.data.map Char.toUpper)

/-- Is `pat` a contiguous sublist of `s`? -/
def isInfixL (pat : List Char) : List Char → Bool
  | [] => pat.isEmpty
  | c :: rest => pat.isPrefixOf (c :: rest) || isInfixL pat rest

/-- JS `s.includes(pat)`. -/
def sIncludes (s pat : String) : Bool :=
  isInfixL pat.data s.data

/-! ### Tool and step naming (claim C8)

`getSingularName` is translated from `openapi-parser.js` (it names workflow
step actions); `generateToolName` from `tool-manager.js` (it names the
exposed tools). -/

/-- `OpenAPIParser.getSingularName`: strips a trailing `s` unless the name
ends in `ss`. -/
def getSingularName (name : String) : String :=
  if sEndsWith name "s" && !sEndsWith name "ss" then sDropRight name 1 else name

/-- `ToolManager.generateToolName`: fixed verb prefix per operation key,
applied to `endpointName` with any trailing `s` stripped for item operations. -/
def generateToolName (method endpointName : String) : String :=
  let singularName :=
    if sEndsWith endpointName "s" then sDropRight endpointName 1 else endpointName
  match method with
  | "GET" => "get_" ++ singularName
  | "GET_COLLECTION" => "list_" ++ endpointName
  | "POST" => "create_" ++ singularName
  | "PUT" => "update_" ++ singularName
  | "PATCH" => "patch_" ++ singularName
  | "DELETE" => "delete_" ++ singularName
  | _ => sLower method ++ "_" ++ endpointName

/-! ### Schema reference resolver (claim C7)

`OpenAPIParser.resolveSchemaReference` from `openapi-parser.js`.  The JS
function can recurse unboundedly on cyclic `$ref` chains, so the embedding
takes a fuel parameter that is consumed on every recursive call; `none` means
fuel exhaustion (the JS analogue is non-termination), while the JS value
`null` returned on resolution failure is `some .vnull`.  A truthy non-string
`$ref` (a JS `TypeError`) and a truthy non-object `properties` value (which
JS would enumerate) are left unmodelled; neither arises for OpenAPI input. -/

/-- `{...node, key: v}` for an object `node` whose `key` is already present. -/
def jsObjSet : JsVal → String → JsVal → JsVal
  | .vobj o, k, v => .vobj (objSet o k v)
  | other, _, _ => other

/-- Split a character list on `/` (JS `String.split('/')`: at least one
group, empty groups preserved). -/
def splitSlashChars : List Char → List (List Char)
  | [] => [[]]
  | c :: rest =>
      match splitSlashChars rest with
      | [] => [[c]]
      | g :: gs => if c = '/' then [] :: g :: gs else (c :: g) :: gs

/-- JS `ref.replace(/^#\//, '').split('/')`. -/
def splitRefPath (r : String) : List String :=
  let r' := if sStartsWith r "#/" then sDropLeft r 2 else r
  (splitSlashChars r'.data).map String.mk

/-- Walk a `$ref` path segment-by-segment from the document root; `none`
models the JS `null` returned (with a warning) on a missing segment. -/
def walkRefPath : JsVal → List String → Option JsVal
  | doc, [] => some doc
  | .vobj o, part :: rest =>
      (match objGet o part with
       | some v => walkRefPath v rest
       | none => none)
  | _, _ :: _ => none

/-- The `$ref` field of a node when it is truthy (the JS guard
`if (schemaOrRef.$ref)`). -/
def refOf (node : JsVal) : Option JsVal :=
  match jsGet node "$ref" with
  | some r => if jsTruthy r then some r else none
  | none => none

mutual
/-- `OpenAPIParser.resolveSchemaReference`. -/
def resolveSchemaReference (spec : JsVal) : Nat → JsVal → Option JsVal
  | 0, _ => none
  | fuel + 1, node =>
    if jsTruthy node then
      match refOf node with
      | some (.vstr r) =>
          (match walkRefPath spec (splitRefPath r) with
           | some target => resolveSchemaReference spec fuel target
           | none => some .vnull)
      | some _ => none
      | none =>
          if jsGet node "type" = some (.vstr "object") then
            match jsGet node "properties" with
            | some (.vobj props) =>
                (match resolveProps spec fuel props with
                 | some newProps => some (jsObjSet node "properties" (.vobj newProps))
                 | none => none)
            | _ => some node
          else if jsGet node "type" = some (.vstr "array") then
            match jsGet node "items" with
            | some items =>
                if jsTruthy items then
                  match resolveSchemaReference spec fuel items with
                  | some ri => some (jsObjSet node "items" ri)
                  | none => none
                else some node
            | none => some node
          else some node
    else some .vnull

/-- The `resolvedProperties` loop of the `type: object` branch. -/
def resolveProps (spec : JsVal) : Nat → List (String × JsVal) → Option (List (String × JsVal))
  | 0, _ => none
  | _ + 1, [] => some []
  | fuel + 1, (k, v) :: rest =>
      match resolveSchemaReference spec fuel v, resolveProps spec fuel rest with
      | some rv, some rr => some ((k, rv) :: rr)
      | _, _ => none
end

/-- A `$ref` key reachable by the top-down traversal the claim describes:
through any `properties` / `items` key, with no condition on `type`. -/
inductive ClaimRefReachable : JsVal → Prop where
  | here (o : List (String × JsVal)) (r : JsVal) :
      objGet o "$ref" = some r → ClaimRefReachable (.vobj o)
  | viaProps (o props : List (String × JsVal)) (k : String) (v : JsVal) :
      objGet o "properties" = some (.vobj props) → (k, v) ∈ props →
      ClaimRefReachable v → ClaimRefReachable (.vobj o)
  | viaItems (o : List (String × JsVal)) (items : JsVal) :
      objGet o "items" = some items → ClaimRefReachable items →
      ClaimRefReachable (.vobj o)

/-- A truthy `$ref` reachable by the traversal the resolver actually
performs: `properties` of nodes with `type: "object"` and truthy `items` of
nodes with `type: "array"`. -/
inductive TypedRefReachable : JsVal → Prop where
  | here (o : List (String × JsVal)) (r : JsVal) :
      objGet o "$ref" = some r → jsTruthy r = true → TypedRefReachable (.vobj o)
  | viaProps (o props : List (String × JsVal)) (k : String) (v : JsVal) :
      objGet o "type" = some (.vstr "object") →
      objGet o "properties" = some (.vobj props) → (k, v) ∈ props →
      TypedRefReachable v → TypedRefReachable (.vobj o)
  | viaItems (o : List (String × JsVal)) (items : JsVal) :
      objGet o "type" = some (.vstr "array") →
      objGet o "items" = some items → jsTruthy items = true →
      TypedRefReachable items → TypedRefReachable (.vobj o)

/-- A document with a resolvable definition, used as counterexample data. -/
def docWithDefs : JsVal :=
  .vobj [("defs", .vobj [("a", .vobj [("type", .vstr "string")])])]

/-- A schema that carries `properties` with a nested `$ref` but no
`type: "object"` annotation. -/
def typelessPropsSchema : JsVal :=
  .vobj [("properties", .vobj [("a", .vobj [("$ref", .vstr "#/defs/a")])])]

/-- A document with a `User` schema that references an `Address` schema,
used as witness data for resolution. -/
def userSchemaDoc : JsVal :=
  .vobj [("components", .vobj [("schemas", .vobj [
    ("User", .vobj [
      ("type", .vstr "object"),
      ("properties", .vobj [
        ("name", .vobj [("type", .vstr "string")]),
        ("address", .vobj [("$ref", .vstr "#/components/schemas/Address")])])]),
    ("Address", .vobj [
      ("type", .vstr "object"),
      ("properties", .vobj [
        ("city", .vobj [("type", .vstr "string")])])])])])]

/-- The fully dereferenced `User` schema from `userSchemaDoc`. -/
def resolvedUserSchema : JsVal :=
  .vobj [
    ("type", .vstr "object"),
    ("properties", .vobj [
      ("name", .vobj [("type", .vstr "string")]),
      ("address", .vobj [
        ("type", .vstr "object"),
        ("properties", .vobj [
          ("city", .vobj [("type", .vstr "string")])])])])]

/-! ### Context resolution (`ToolManager.resolveContextReferences`, claims C3/C4)

The context store (`testContext`, a JS `Map`) is modelled as an association
list with string keys; `objGet`/`objSet` give its `get`/`set`/`has`.
Non-string `Map` keys and non-string `fromContext` values never match a
string-keyed store and are modelled as misses. -/

/-- JS string coercion (template literals, `String.replace` second argument).
Array joining and object coercion are approximated; the claims only coerce
strings (`none`, i.e. `undefined`, coerces to `"undefined"`). -/
def jsToString : JsVal → String
  | .vnull => "null"
  | .vbool b => if b then "true" else "false"
  | .vnum n => toString n
  | .vstr s => s
  | .varr _ => ""
  | .vobj _ => "[object Object]"

/-- JS coercion of a possibly-`undefined` value. -/
def optToString : Option JsVal → String
  | some v => jsToString v
  | none => "undefined"

/-- JS `s.replace(pat, repl)` with a *string* pattern: replaces only the
first occurrence. -/
def replaceFirstChars (pat repl : List Char) : List Char → List Char
  | [] => if pat.isEmpty then repl else []
  | c :: rest =>
      if pat.isPrefixOf (c :: rest) then repl ++ (c :: rest).drop pat.length
      else c :: replaceFirstChars pat repl rest

/-- JS `s.replace(pat, repl)` (first occurrence only). -/
def sReplaceFirst (s pat repl : String) : String :=
  String.mk (replaceFirstChars pat.data repl.data s.data)

mutual
/-- `replaceDynamicMarker` from `resolveContextReferences`: replaces the
marker in every string leaf (first occurrence per string), descending
through arrays and objects. -/
def replaceDynamicMarker (marker value : String) : JsVal → JsVal
  | .vstr s => .vstr (sReplaceFirst s marker value)
  | .varr xs => .varr (replaceDynamicMarkerList marker value xs)
  | .vobj o => .vobj (replaceDynamicMarkerFields marker value o)
  | other => other

def replaceDynamicMarkerList (marker value : String) : List JsVal → List JsVal
  | [] => []
  | x :: xs => replaceDynamicMarker marker value x :: replaceDynamicMarkerList marker value xs

def replaceDynamicMarkerFields (marker value : String) :
    List (String × JsVal) → List (String × JsVal)
  | [] => []
  | (k, v) :: rest =>
      (k, replaceDynamicMarker marker value v) :: replaceDynamicMarkerFields marker value rest
end

/-- The `fromContext` merge step of `resolveContextReferences`:
`Object.assign(resolved, contextData)` then `Object.assign(resolved, args)`,
then adoption of a truthy stored `id` when the call's `id` is falsy. -/
def applyFromContext (args ctx : List (String × JsVal)) : List (String × JsVal) :=
  match objGet args "fromContext" with
  | some (.vstr key) =>
      if jsTruthy (.vstr key) then
        match objGet ctx key with
        | some contextData =>
            let merged :=
              match contextData with
              | .vobj cd => objAssign (objAssign args cd) args
              | _ => objAssign args args
            match contextData with
            | .vobj cd =>
                (match objGet cd "id" with
                 | some idv =>
                     if jsTruthy idv && !optTruthy (objGet args "id") then
                       objSet merged "id" idv
                     else merged
                 | none => merged)
            | _ => merged
        | none => args
      else args
  | _ => args

/-- One iteration of the `_dynamicForeignKeys` loop: look up
`existing_<targetEndpoint>`; when it holds a non-empty array, replace the
dependency's marker (first occurrence per string leaf) by the first entry's
`id` in every field except `_dynamicForeignKeys`. -/
def applyFkDep (ctx : List (String × JsVal)) (resolved : List (String × JsVal))
    (dep : JsVal) : List (String × JsVal) :=
  let contextKey := "existing_" ++ optToString (jsGet dep "targetEndpoint")
  match objGet ctx contextKey with
  | some (.varr (first :: _)) =>
      let value := optToString (jsGet first "id")
      let marker := optToString (jsGet dep "marker")
      resolved.map fun kv =>
        if kv.1 = "_dynamicForeignKeys" then kv
        else (kv.1, replaceDynamicMarker marker value kv.2)
  | _ => resolved

/-- The `_dynamicForeignKeys` branch: present and an array ⇒ process each
dependency, then delete the flag. -/
def applyDynamicFks (args ctx resolved : List (String × JsVal)) : List (String × JsVal) :=
  match objGet args "_dynamicForeignKeys" with
  | some (.varr deps) =>
      objDelete (deps.foldl (applyFkDep ctx) resolved) "_dynamicForeignKeys"
  | _ => resolved

/-- The legacy `_dynamicAuthorId` branch (hardcoded
`\x7b\x7bEXISTING_USER_ID\x7d\x7d` marker against `existing_users`). -/
def applyLegacyAuthorId (args ctx resolved : List (String × JsVal)) :
    List (String × JsVal) :=
  match objGet args "_dynamicAuthorId" with
  | some flag =>
      if jsTruthy flag then
        match objGet ctx "existing_users" with
        | some (.varr (first :: _)) =>
            let authorId := optToString (jsGet first "id")
            let marker := "\x7b\x7bEXISTING_USER_ID\x7d\x7d"
            objDelete
              (resolved.map fun kv =>
                if kv.1 = "_dynamicAuthorId" then kv
                else (kv.1, replaceDynamicMarker marker authorId kv.2))
              "_dynamicAuthorId"
        | _ => resolved
      else resolved
  | none => resolved

/-- `ToolManager.resolveContextReferences`. -/
def resolveContextReferences (args ctx : List (String × JsVal)) :
    List (String × JsVal) :=
  applyLegacyAuthorId args ctx (applyDynamicFks args ctx (applyFromContext args ctx))

/-! ### Endpoint tool execution (`ToolManager.handleEndpointTool`,
claims C9/C10) -/

/-- The per-tool record stored in `endpointTools` (the fields the handler
reads: endpoint name, operation key, and the operation's own path). -/
structure EndpointToolInfo where
  endpoint : String
  method : String
  opPath : String
  deriving Repr, DecidableEq

/-- The dispatcher collaborator's response (`{status, data}`); `data = none`
models an `undefined`/absent body. -/
structure HttpResponse where
  status : Int
  rdata : Option JsVal
  deriving Repr, DecidableEq

/-- Outcome of `handleEndpointTool`: whether the HTTP dispatcher was invoked,
the context store afterwards, and the thrown error message if any. -/
structure ToolCallResult where
  dispatched : Bool
  ctx : List (String × JsVal)
  error : Option String
  deriving Repr, DecidableEq

/-- `url.replace(/\x7b[^\x7d]+\x7d/g, id)`: replace every `\x7b...\x7d`
segment.  Fuel-structured for kernel reducibility; `fuel = cs.length`
always suffices since each step consumes at least one character. -/
def replaceParamsAux (id : List Char) : Nat → List Char → List Char
  | 0, cs => cs
  | _ + 1, [] => []
  | fuel + 1, c :: rest =>
      if c = '\x7b' then
        let seg := rest.takeWhile (fun d => d ≠ '\x7d')
        if seg.length ≥ 1 && seg.length < rest.length then
          id ++ replaceParamsAux id fuel (rest.drop (seg.length + 1))
        else c :: replaceParamsAux id fuel rest
      else c :: replaceParamsAux id fuel rest

/-- JS `url.replace(/\x7b[^\x7d]+\x7d/g, id)`. -/
def replaceParams (url id : String) : String :=
  String.mk (replaceParamsAux id.data url.data.length url.data)

/-- Does the string contain the character? (JS `s.includes(c)`.) -/
def sContainsChar (s : String) (c : Char) : Bool :=
  s.data.contains c

/-- `URLSearchParams(o).toString()` approximated as `k=v&...` without
percent-encoding (the claims never inspect query strings). -/
def serializeQuery : JsVal → String
  | .vobj o => String.intercalate "&" (o.map fun kv => kv.1 ++ "=" ++ jsToString kv.2)
  | _ => ""

/-- The `saveToContext` write at the end of a successful call:
`if (args.saveToContext && response.data) testContext.set(...)`. -/
def saveToContextStep (args ctx : List (String × JsVal)) (rdata : Option JsVal) :
    List (String × JsVal) :=
  match objGet args "saveToContext", rdata with
  | some (.vstr key), some d =>
      if jsTruthy (.vstr key) && jsTruthy d then objSet ctx key d else ctx
  | _, _ => ctx

/-- The HTTP verb actually used: `GET_COLLECTION` maps to `GET`. -/
def httpMethodOf (method : String) : String :=
  if method = "GET_COLLECTION" then "GET" else method

/-- The request body preparation of `handleEndpointTool`: for body-carrying
verbs, the raw `data` object (if an object) overlaid with every individual
field except `id`/`queryParams`/`saveToContext`/`fromContext`/`data`. -/
def preparedData (tool : EndpointToolInfo) (resolvedArgs : List (String × JsVal)) :
    List (String × JsVal) :=
  if httpMethodOf tool.method = "POST" || httpMethodOf tool.method = "PUT"
      || httpMethodOf tool.method = "PATCH" then
    let base :=
      match objGet resolvedArgs "data" with
      | some (.vobj d) => d
      | _ => []
    resolvedArgs.foldl
      (fun acc kv =>
        if kv.1 = "id" || kv.1 = "queryParams" || kv.1 = "saveToContext"
            || kv.1 = "fromContext" || kv.1 = "data" then acc
        else objSet acc kv.1 kv.2)
      base
  else []

/-- URL construction of `handleEndpointTool`: operation path appended to the
base URL, path parameters replaced by the resolved `id`, query parameters
appended when truthy. -/
def buildUrl (apiBaseUrl : String) (tool : EndpointToolInfo)
    (resolvedArgs : List (String × JsVal)) : String :=
  let url0 := apiBaseUrl ++ tool.opPath
  let url1 :=
    if sContainsChar tool.opPath '\x7b' then
      replaceParams url0 (optToString (objGet resolvedArgs "id"))
    else url0
  match objGet resolvedArgs "queryParams" with
  | some qp => if jsTruthy qp then url1 ++ "?" ++ serializeQuery qp else url1
  | none => url1

/-- `ToolManager.handleEndpointTool`, as a function of the dispatcher's
outcome `resp` (the injected `httpClient.request`).  The formatted response
text is not modelled; the result records dispatch, the context store and the
thrown error. -/
def handleEndpointTool (apiBaseUrl : String) (endpointNames : List String)
    (tool : EndpointToolInfo) (args ctx : List (String × JsVal))
    (resp : Except String HttpResponse) : ToolCallResult :=
  if !endpointNames.contains tool.endpoint then
    { dispatched := false, ctx := ctx,
      error := some ("Endpoint not found: " ++ tool.endpoint) }
  else if sContainsChar tool.opPath '\x7b'
      && !optTruthy (objGet (resolveContextReferences args ctx) "id") then
    { dispatched := false, ctx := ctx,
      error := some ("ID parameter is required for " ++ tool.method
        ++ " operation on " ++ tool.opPath) }
  else if httpMethodOf tool.method = "POST"
      && (preparedData tool (resolveContextReferences args ctx)).isEmpty then
    { dispatched := false, ctx := ctx,
      error := some ("No data provided for " ++ tool.method
        ++ " operation. Provide either individual fields or a 'data' object.") }
  else
    match resp with
    | .error e =>
        { dispatched := true, ctx := ctx,
          error := some (tool.method ++ " "
            ++ buildUrl apiBaseUrl tool (resolveContextReferences args ctx)
            ++ " failed: " ++ e) }
    | .ok r =>
        { dispatched := true, ctx := saveToContextStep args ctx r.rdata,
          error := none }

/-! ### Workflow execution (`ToolManager.handleRunWorkflow`, claim C5) -/

/-- A workflow step (`{ action, description, args? }`). -/
structure Step where
  action : String
  description : String
  args : Option (List (String × JsVal)) := none
  deriving Repr, DecidableEq

/-- The step loop of `ToolManager.handleRunWorkflow`, as a function of the
injected per-step dispatcher (`handleToolCall`).  Returns the list of
actions actually dispatched and the per-step report lines (success text or
failure message — the surrounding emoji decoration is not modelled).
`stopOnError` is the raw `args.stopOnError` value: the code tests its
truthiness with `if (args.stopOnError)`, so an absent value (`none`) is
falsy. -/
def runWorkflowSteps (dispatch : String → List (String × JsVal) → Except String String)
    (stopOnError : Option JsVal) : List Step → List String × List String
  | [] => ([], [])
  | step :: rest =>
      match dispatch step.action (step.args.getD []) with
      | .ok txt =>
          let (as, rs) := runWorkflowSteps dispatch stopOnError rest
          (step.action :: as, ("Completed: " ++ txt) :: rs)
      | .error e =>
          if optTruthy stopOnError then
            ([step.action], ["Failed: " ++ e])
          else
            let (as, rs) := runWorkflowSteps dispatch stopOnError rest
            (step.action :: as, ("Failed: " ++ e) :: rs)

/-- A dispatcher that fails on `step1` and succeeds elsewhere, used to
exercise the `stopOnError` paths. -/
def failingStep1Dispatch : String → List (String × JsVal) → Except String String :=
  fun action _ => if action = "step1" then .error "boom" else .ok "done"

/-- Concrete foreign-key dependency object (`posts.authorId → users`). -/
def fkDepUsersNote : JsVal :=
  .vobj [("sourceProperty", .vstr "note"), ("targetEndpoint", .vstr "users"),
         ("marker", .vstr ("\x7b\x7bDYNAMIC_USERS_ID\x7d\x7d"))]

/-! ### Sample-data synthesis and foreign-key detection
(`OpenAPIParser`, claims C6/C1/C2)

`generateSampleData` / `generateSampleValueForProp` recurse through values
obtained by key lookup, so the embedding is fuel-structured (fuel is consumed
on every recursive call; `none` = fuel exhaustion, never reached at adequate
fuel since the JS recursion is well-founded on the schema tree). -/

/-- `OpenAPIParser.pluralize`. -/
def pluralize (word : String) : String :=
  if sEndsWith word "y" then sDropRight word 1 ++ "ies"
  else if sEndsWith word "s" || sEndsWith word "x" || sEndsWith word "z"
      || sEndsWith word "ch" || sEndsWith word "sh" then word ++ "es"
  else word ++ "s"

/-- `propName.match(/^(.+)id$/i)`: group 1 (greedy) is everything before a
case-insensitive trailing `id`. -/
def matchFkPattern1 (propName : String) : Option String :=
  let cs := propName.data
  if cs.length ≥ 3 && (cs.drop (cs.length - 2)).map Char.toLower = ['i', 'd'] then
    some (String.mk (cs.take (cs.length - 2)))
  else none

/-- `propName.match(/^(.+)_id$/i)`. -/
def matchFkPattern2 (propName : String) : Option String :=
  let cs := propName.data
  if cs.length ≥ 4 && (cs.drop (cs.length - 3)).map Char.toLower = ['_', 'i', 'd'] then
    some (String.mk (cs.take (cs.length - 3)))
  else none

/-- `propName.match(/^id_(.+)$/i)`. -/
def matchFkPattern3 (propName : String) : Option String :=
  let cs := propName.data
  if cs.length ≥ 4 && (cs.take 3).map Char.toLower = ['i', 'd', '_'] then
    some (String.mk (cs.drop 3))
  else none

/-- The fixed `resourceMappings` alias table. -/
def resourceMappings (resource : String) : Option String :=
  if resource = "author" then some "users"
  else if resource = "user" then some "users"
  else if resource = "owner" then some "users"
  else if resource = "creator" then some "users"
  else if resource = "category" then some "categories"
  else if resource = "tag" then some "tags"
  else none

/-- Foreign-key relationship info returned by detection. -/
structure FKInfo where
  sourceProperty : String
  targetEndpoint : String
  targetResource : String
  deriving Repr, DecidableEq

/-- One iteration of the pattern loop in `detectForeignKeyRelationship`:
map the captured resource through the alias table (falling back to
pluralization) and succeed only if the target endpoint is registered. -/
def tryFkCapture (endpointNames : List String) (propName : String) :
    Option String → Option FKInfo
  | some captured =>
      let targetResource := sLower captured
      let targetEndpoint := (resourceMappings targetResource).getD (pluralize targetResource)
      if endpointNames.contains targetEndpoint then
        some ⟨propName, targetEndpoint, targetResource⟩
      else none
  | none => none

/-- `OpenAPIParser.detectForeignKeyRelationship` (the `currentEndpoint`
parameter is unused by the source too); patterns are tried in order, and a
pattern whose target endpoint is unregistered falls through to the next. -/
def detectForeignKeyRelationship (endpointNames : List String) (propName : String)
    (propSchema : JsVal) (_currentEndpoint : String) : Option FKInfo :=
  if jsGet propSchema "format" = some (.vstr "uuid") then
    match tryFkCapture endpointNames propName (matchFkPattern1 propName) with
    | some info => some info
    | none =>
        match tryFkCapture endpointNames propName (matchFkPattern2 propName) with
        | some info => some info
        | none => tryFkCapture endpointNames propName (matchFkPattern3 propName)
  else none

/-- The dynamic marker emitted on successful foreign-key detection. -/
def dynamicMarker (target : String) : String :=
  "\x7b\x7b" ++ "DYNAMIC_" ++ sUpper target ++ "_ID" ++ "\x7d\x7d"

/-- The `case 'string'` branch of `generateSampleValueForProp` (format
checks, then name-substring heuristics, in source order). -/
def generateSampleString (endpointNames : List String) (propName : String)
    (propSchema : JsVal) (endpointName : String) : JsVal :=
  let format := jsGet propSchema "format"
  let lower := sLower propName
  if format = some (.vstr "email") || sIncludes lower "email" then
    .vstr "workflow.test@example.com"
  else if format = some (.vstr "date") then .vstr "2025-01-01"
  else if format = some (.vstr "date-time") then .vstr "2025-01-01T10:00:00Z"
  else if format = some (.vstr "uuid") then
    (match detectForeignKeyRelationship endpointNames propName propSchema endpointName with
     | some fk => .vstr (dynamicMarker fk.targetEndpoint)
     | none => .vstr "123e4567-e89b-12d3-a456-426614174000")
  else if format = some (.vstr "password") || sIncludes lower "password" then
    .vstr "WorkflowTestPass123!"
  else if format = some (.vstr "uri") || sIncludes lower "url" then
    .vstr "https://example.com/test"
  else if sIncludes lower "firstname" || sIncludes lower "first_name" then .vstr "Workflow"
  else if sIncludes lower "lastname" || sIncludes lower "last_name" then .vstr "TestUser"
  else if sIncludes lower "fullname" || sIncludes lower "full_name" then
    .vstr "Workflow TestUser"
  else if sIncludes lower "username" then .vstr "workflow_tester"
  else if sIncludes lower "title" then .vstr "Sample Workflow Title"
  else if sIncludes lower "description" then
    .vstr "This is a sample description generated for testing."
  else if sIncludes lower "content" then .vstr "This is sample content for a test entry."
  else if sIncludes lower "phone" then .vstr "123-456-7890"
  else if sIncludes lower "address" then .vstr "123 Test St, Sample City"
  else if sIncludes lower "city" then .vstr "Sample City"
  else if sIncludes lower "country" then .vstr "USA"
  else if sIncludes lower "zip" || sIncludes lower "postal" then .vstr "12345"
  else if sIncludes lower "name" then .vstr ("Sample " ++ propName)
  else .vstr ("test_" ++ lower)

mutual
/-- `OpenAPIParser.generateSampleData` (required properties first, then the
remaining ones, read-only properties skipped).  A non-array `required` (a JS
TypeError) and a truthy non-object `properties` are not modelled. -/
def generateSampleData (endpointNames : List String) :
    Nat → JsVal → String → Option (List (String × JsVal))
  | 0, _, _ => none
  | fuel + 1, schema, endpointName =>
      match schema with
      | .vobj o =>
          if objGet o "type" = some (.vstr "object") then
            match objGet o "properties" with
            | some (.vobj props) =>
                let required := match objGet o "required" with
                  | some (.varr xs) => xs
                  | _ => []
                (match requiredFold endpointNames fuel props required endpointName [] with
                 | some acc1 => propsFold endpointNames fuel props endpointName acc1
                 | none => none)
            | _ => some []
          else some []
      | _ => some []

/-- The `for (const propName of required)` loop. -/
def requiredFold (endpointNames : List String) :
    Nat → List (String × JsVal) → List JsVal → String → List (String × JsVal) →
    Option (List (String × JsVal))
  | 0, _, _, _, _ => none
  | _ + 1, _, [], _, acc => some acc
  | fuel + 1, props, entry :: rest, endpointName, acc =>
      let propName := jsToString entry
      match objGet props propName with
      | some ps =>
          if jsTruthy ps then
            if optTruthy (jsGet ps "readOnly") then
              requiredFold endpointNames fuel props rest endpointName acc
            else
              match generateSampleValueForProp endpointNames fuel propName ps endpointName with
              | some v => requiredFold endpointNames fuel props rest endpointName
                  (objSet acc propName v)
              | none => none
          else requiredFold endpointNames fuel props rest endpointName acc
      | none => requiredFold endpointNames fuel props rest endpointName acc

/-- The `for (const [propName, propSchema] of Object.entries(properties))`
loop (skips keys already produced and read-only properties). -/
def propsFold (endpointNames : List String) :
    Nat → List (String × JsVal) → String → List (String × JsVal) →
    Option (List (String × JsVal))
  | 0, _, _, _ => none
  | _ + 1, [], _, acc => some acc
  | fuel + 1, (propName, ps) :: rest, endpointName, acc =>
      if (objGet acc propName).isSome || optTruthy (jsGet ps "readOnly") then
        propsFold endpointNames fuel rest endpointName acc
      else
        match generateSampleValueForProp endpointNames fuel propName ps endpointName with
        | some v => propsFold endpointNames fuel rest endpointName (objSet acc propName v)
        | none => none

/-- `OpenAPIParser.generateSampleValueForProp`.  An empty or non-array
truthy `enum` (JS would yield `undefined` / an indexed lookup) is
approximated by `null`. -/
def generateSampleValueForProp (endpointNames : List String) :
    Nat → String → JsVal → String → Option JsVal
  | 0, _, _, _ => none
  | fuel + 1, propName, propSchema, endpointName =>
      match jsGet propSchema "example" with
      | some ex => some ex
      | none =>
          match jsGet propSchema "enum" with
          | some en =>
              if jsTruthy en then
                match en with
                | .varr (x :: _) => some x
                | _ => some .vnull
              else generateSampleForType endpointNames fuel propName propSchema endpointName
          | none => generateSampleForType endpointNames fuel propName propSchema endpointName

/-- The `switch (type)` of `generateSampleValueForProp`. -/
def generateSampleForType (endpointNames : List String) :
    Nat → String → JsVal → String → Option JsVal
  | 0, _, _, _ => none
  | fuel + 1, propName, propSchema, endpointName =>
      let ty := jsGet propSchema "type"
      if ty = some (.vstr "string") then
        some (generateSampleString endpointNames propName propSchema endpointName)
      else if ty = some (.vstr "integer") || ty = some (.vstr "number") then
        (match jsGet propSchema "minimum" with
         | some m => some m
         | none => some (.vnum 10))
      else if ty = some (.vstr "boolean") then some (.vbool true)
      else if ty = some (.vstr "array") then
        (match jsGet propSchema "items" with
         | some items =>
             if jsTruthy items then
               match generateSampleValueForProp endpointNames fuel (propName ++ "_item")
                   items endpointName with
               | some v => some (.varr [v])
               | none => none
             else some (.varr [])
         | none => some (.varr []))
      else if ty = some (.vstr "object") then
        (match generateSampleData endpointNames fuel propSchema endpointName with
         | some fields => some (.vobj fields)
         | none => none)
      else some .vnull
end

/-! ### Foreign-key dependency analysis
(`OpenAPIParser.analyzeForeignKeyDependencies`) -/

/-- Hex digit for JSON string escaping. -/
def hexDigit (n : Nat) : Char :=
  if n < 10 then Char.ofNat (48 + n) else Char.ofNat (87 + n)

/-- JSON escaping of one character (`JSON.stringify` string rules). -/
def escapeJsonChar (c : Char) : List Char :=
  if c = '"' then ['\\', '"']
  else if c = '\\' then ['\\', '\\']
  else if c = Char.ofNat 10 then ['\\', 'n']
  else if c = Char.ofNat 13 then ['\\', 'r']
  else if c = Char.ofNat 9 then ['\\', 't']
  else if c = Char.ofNat 8 then ['\\', 'b']
  else if c = Char.ofNat 12 then ['\\', 'f']
  else if c.toNat < 32 then
    ['\\', 'u', '0', '0', hexDigit (c.toNat / 16), hexDigit (c.toNat % 16)]
  else [c]

/-- JSON escaping of a string body. -/
def escapeJson (s : String) : String :=
  String.mk (s.data.flatMap escapeJsonChar)

mutual
/-- `JSON.stringify` (object keys in insertion order; `undefined` does not
arise in the model). -/
def jsonStringify : JsVal → String
  | .vnull => "null"
  | .vbool b => if b then "true" else "false"
  | .vnum n => toString n
  | .vstr s => "\"" ++ escapeJson s ++ "\""
  | .varr xs => "[" ++ jsonStringifyList xs ++ "]"
  | .vobj o => "\x7b" ++ jsonStringifyFields o ++ "\x7d"

def jsonStringifyList : List JsVal → String
  | [] => ""
  | [x] => jsonStringify x
  | x :: y :: rest => jsonStringify x ++ "," ++ jsonStringifyList (y :: rest)

def jsonStringifyFields : List (String × JsVal) → String
  | [] => ""
  | [(k, v)] => "\"" ++ escapeJson k ++ "\":" ++ jsonStringify v
  | (k, v) :: p :: rest =>
      "\"" ++ escapeJson k ++ "\":" ++ jsonStringify v ++ ","
        ++ jsonStringifyFields (p :: rest)
end

/-- `\w` of JS regexes. -/
def isWordChar (c : Char) : Bool :=
  ('a' ≤ c && c ≤ 'z') || ('A' ≤ c && c ≤ 'Z') || ('0' ≤ c && c ≤ '9') || c = '_'

/-- Try to match `/\x7b\x7bDYNAMIC_(\w+)_ID\x7d\x7d/` at the head of the
character list; on success return the whole match and the remainder. -/
def tryMarkerAt (cs : List Char) : Option (String × List Char) :=
  if ("\x7b\x7bDYNAMIC_").data.isPrefixOf cs then
    let afterPrefix := cs.drop 10
    let run := afterPrefix.takeWhile isWordChar
    if run.length ≥ 4 && run.drop (run.length - 3) = ['_', 'I', 'D']
        && ("\x7d\x7d").data.isPrefixOf (afterPrefix.drop run.length) then
      some (String.mk (("\x7b\x7bDYNAMIC_").data ++ run ++ ("\x7d\x7d").data),
        afterPrefix.drop (run.length + 2))
    else none
  else none

/-- `dataStr.match(/\x7b\x7bDYNAMIC_(\w+)_ID\x7d\x7d/g)`: all non-overlapping
matches, left to right (duplicates included).  Fuel-structured; each step
consumes at least one character, so `fuel = cs.length` suffices. -/
def scanMarkersAux : Nat → List Char → List String
  | 0, _ => []
  | _ + 1, [] => []
  | fuel + 1, c :: rest =>
      match tryMarkerAt (c :: rest) with
      | some (m, remaining) => m :: scanMarkersAux fuel remaining
      | none => scanMarkersAux fuel rest

/-- All `DYNAMIC` marker matches in a string. -/
def scanMarkers (s : String) : List String :=
  scanMarkersAux s.data.length s.data

/-- Group 1 of a full marker match (`match.match(...)[1]`). -/
def markerCapture (matchStr : String) : String :=
  String.mk ((matchStr.data.drop 10).take (matchStr.data.length - 15))

mutual
/-- Descent of `findPropertyWithMarker` into one value: objects and arrays
(`typeof value === 'object'`) are searched recursively, everything else
yields nothing (the exact-equality test on the value itself is done by the
caller). -/
def findPropInVal (marker : String) : JsVal → Option String
  | .vobj o => findPropInFields marker o
  | .varr xs => findPropInArr marker 0 xs
  | _ => none

/-- `findPropertyWithMarker`: depth-first search for the first property (or
array index) whose value is exactly the marker string; returns the key. -/
def findPropInFields (marker : String) : List (String × JsVal) → Option String
  | [] => none
  | (k, v) :: rest =>
      if v = .vstr marker then some k
      else
        match findPropInVal marker v with
        | some p => some p
        | none => findPropInFields marker rest

def findPropInArr (marker : String) : Nat → List JsVal → Option String
  | _, [] => none
  | i, v :: rest =>
      if v = .vstr marker then some (toString i)
      else
        match findPropInVal marker v with
        | some p => some p
        | none => findPropInArr marker (i + 1) rest
end

/-- A foreign-key dependency record as it is attached to workflow steps. -/
def mkFkDep (sourceProperty targetEndpoint marker : String) : JsVal :=
  .vobj [("sourceProperty", .vstr sourceProperty),
         ("targetEndpoint", .vstr targetEndpoint),
         ("marker", .vstr marker)]

/-- `OpenAPIParser.analyzeForeignKeyDependencies`: serialize the sample
payload, regex-scan for markers, and record the first property holding each
match (markers buried inside longer strings are matched by the regex but
dropped here because no property equals them exactly). -/
def analyzeForeignKeyDependencies (sampleData : List (String × JsVal)) : List JsVal :=
  let dataStr := jsonStringify (.vobj sampleData)
  (scanMarkers dataStr).filterMap fun m =>
    let targetEndpoint := sLower (markerCapture m)
    match findPropInFields m sampleData with
    | some p => some (mkFkDep p targetEndpoint m)
    | none => none

/-! ### Workflow synthesis (`OpenAPIParser.generateWorkflows`,
claims C1/C2) -/

/-- The fields of an operation that workflow synthesis reads. -/
structure Operation where
  requestBody : Option JsVal
  path : String
  deriving Repr, DecidableEq

/-- An endpoint-registry entry (`name`, `operations` keyed by
`GET`/`GET_COLLECTION`/`POST`/`PUT`/`PATCH`/`DELETE`). -/
structure Endpoint where
  name : String
  operations : List (String × Operation)
  deriving Repr, DecidableEq

/-- Lookup in an endpoint operations map. -/
def opGet : List (String × Operation) → String → Option Operation
  | [], _ => none
  | (k, v) :: rest, m => if k = m then some v else opGet rest m

/-- A synthesized workflow. -/
structure Workflow where
  name : String
  description : String
  steps : List Step
  deriving Repr, DecidableEq

/-- `Map.set` on the workflows map. -/
def wfSet : List (String × Workflow) → String → Workflow → List (String × Workflow)
  | [], k, v => [(k, v)]
  | (k', v') :: rest, k, v =>
      if k' = k then (k', v) :: rest else (k', v') :: wfSet rest k v

/-- `Map.get` on the workflows map. -/
def wfGet : List (String × Workflow) → String → Option Workflow
  | [], _ => none
  | (k', v) :: rest, k => if k' = k then some v else wfGet rest k

/-- `OpenAPIParser.extractSchemaFromRequestBody` (resolution threaded through
the fuelled resolver; `some .vnull` is the JS `null`). -/
def extractSchemaFromRequestBody (spec : JsVal) (fuel : Nat) (requestBody : JsVal) :
    Option JsVal :=
  match (jsGet requestBody "content").bind (fun c => jsGet c "application/json")
      |>.bind (fun aj => jsGet aj "schema") with
  | some sch => if jsTruthy sch then resolveSchemaReference spec fuel sch else some .vnull
  | none => some .vnull

/-- `OpenAPIParser.generateWorkflowSampleData`: `\x7bdata: sample, ...sample\x7d`
when the operation has a resolvable JSON request-body schema, else `\x7b\x7d`. -/
def generateWorkflowSampleData (endpointNames : List String) (spec : JsVal) (fuel : Nat)
    (endpoint : Endpoint) (method : Option String) (endpointName : String) :
    Option (List (String × JsVal)) :=
  match method with
  | none => some []
  | some m =>
      match opGet endpoint.operations m with
      | none => some []
      | some op =>
          match op.requestBody with
          | none => some []
          | some rb =>
              match extractSchemaFromRequestBody spec fuel rb with
              | none => none
              | some schema =>
                  if jsTruthy schema then
                    match generateSampleData endpointNames fuel schema endpointName with
                    | some sample => some (objAssign [("data", .vobj sample)] sample)
                    | none => none
                  else some []

/-- The dependency-fetch pre-steps, deduplicated by context key
(`addedContextKeys`), in first-seen order. -/
def buildDepSteps : List JsVal → List String → List Step
  | [], _ => []
  | dep :: rest, added =>
      let target := optToString (jsGet dep "targetEndpoint")
      let contextKey := "existing_" ++ target
      if added.contains contextKey then buildDepSteps rest added
      else
        { action := "list_" ++ target,
          description := "Get existing " ++ target ++ " for "
            ++ optToString (jsGet dep "sourceProperty") ++ " reference",
          args := some [("saveToContext", .vstr contextKey)] }
          :: buildDepSteps rest (contextKey :: added)

/-- `deps.filter((dep, i, arr) => arr.findIndex(d => d.marker === dep.marker) === i)`. -/
def uniqueByMarker (deps : List JsVal) : List JsVal :=
  (deps.enum.filter fun p =>
    deps.findIdx (fun d => jsGet d "marker" == jsGet p.2 "marker") = p.1).map Prod.snd

/-- Eligibility for a CRUD workflow: list, item-get, create and delete all
present (`hasList && hasGet && hasCreate && hasDelete`). -/
def crudEligible (e : Endpoint) : Bool :=
  (opGet e.operations "GET_COLLECTION").isSome
    && (opGet e.operations "GET").isSome
    && (opGet e.operations "POST").isSome
    && (opGet e.operations "DELETE").isSome

/-- The update method chosen for the update sample payload:
`hasUpdate ? (PUT ? 'PUT' : 'PATCH') : null`. -/
def updateMethodOf (e : Endpoint) : Option String :=
  if (opGet e.operations "PUT").isSome || (opGet e.operations "PATCH").isSome then
    (if (opGet e.operations "PUT").isSome then some "PUT" else some "PATCH")
  else none

/-- The workflow built for one eligible endpoint (the body of the `if` in
`generateWorkflows`). -/
def buildCrudWorkflow (endpointNames : List String) (spec : JsVal) (fuel : Nat)
    (endpointName : String) (endpoint : Endpoint) : Option Workflow :=
  let singularName := getSingularName endpointName
  let contextVar := "created_" ++ singularName
  let hasUpdate := (opGet endpoint.operations "PUT").isSome
    || (opGet endpoint.operations "PATCH").isSome
  let updateMethod : Option String := updateMethodOf endpoint
  match generateWorkflowSampleData endpointNames spec fuel endpoint (some "POST")
      endpointName with
  | none => none
  | some createData =>
      match generateWorkflowSampleData endpointNames spec fuel endpoint updateMethod
          endpointName with
      | none => none
      | some updateData =>
          let foreignKeyDeps := analyzeForeignKeyDependencies createData
          let depSteps := buildDepSteps foreignKeyDeps []
          let createArgs0 := objAssign [("saveToContext", .vstr contextVar)] createData
          let createArgs :=
            if foreignKeyDeps.length > 0 then
              objSet createArgs0 "_dynamicForeignKeys" (.varr (uniqueByMarker foreignKeyDeps))
            else createArgs0
          some
            { name := endpointName ++ "_crud_workflow",
              description := "Full CRUD workflow for the " ++ endpointName ++ " endpoint.",
              steps :=
                depSteps
                ++ [{ action := "create_" ++ singularName,
                      description := "Create a new " ++ singularName,
                      args := some createArgs }]
                ++ [{ action := "list_" ++ endpointName,
                      description := "List all " ++ endpointName ++ " to verify creation",
                      args := none }]
                ++ [{ action := "get_" ++ singularName,
                      description := "Get the created " ++ singularName ++ " by ID",
                      args := some [("fromContext", .vstr contextVar)] }]
                ++ (if hasUpdate && updateData.length > 1 then
                      [{ action := "update_" ++ singularName,
                         description := "Update the created " ++ singularName,
                         args := some (objAssign [("fromContext", .vstr contextVar)]
                           updateData) }]
                    else [])
                ++ [{ action := "delete_" ++ singularName,
                      description := "Delete the created " ++ singularName,
                      args := some [("fromContext", .vstr contextVar)] }] }

/-- The registry fold of `generateWorkflows` (eligibility: list, get, create
and delete all present). -/
def generateWorkflowsGo (endpointNames : List String) (spec : JsVal) (fuel : Nat) :
    List (String × Endpoint) → List (String × Workflow) →
    Option (List (String × Workflow))
  | [], acc => some acc
  | (endpointName, endpoint) :: rest, acc =>
      if crudEligible endpoint then
        match buildCrudWorkflow endpointNames spec fuel endpointName endpoint with
        | some wf => generateWorkflowsGo endpointNames spec fuel rest
            (wfSet acc (endpointName ++ "_crud_workflow") wf)
        | none => none
      else generateWorkflowsGo endpointNames spec fuel rest acc

/-- `OpenAPIParser.generateWorkflows` over a parsed endpoint registry. -/
def generateWorkflows (spec : JsVal) (fuel : Nat)
    (endpoints : List (String × Endpoint)) : Option (List (String × Workflow)) :=
  generateWorkflowsGo (endpoints.map Prod.fst) spec fuel endpoints []

/-! ### Claim-side definitions for C2 (written from the specification's
words, to be compared with the synthesizer's output) -/

/-- The (action, args) signature of a step — the parts of a step the claim
speaks about. -/
def stepSig (s : Step) : String × Option (List (String × JsVal)) :=
  (s.action, s.args)

/-- Foreign-key target endpoints, "deduplicated by target endpoint name, in
first-seen order" (claim wording). -/
def firstSeenTargets : List JsVal → List String → List String
  | [], _ => []
  | dep :: rest, seen =>
      let t := optToString (jsGet dep "targetEndpoint")
      if seen.contains t then firstSeenTargets rest seen
      else t :: firstSeenTargets rest (t :: seen)

/-- Dependencies "deduplicated by marker" keeping first occurrences (claim
wording). -/
def firstSeenByMarker : List JsVal → List (Option JsVal) → List JsVal
  | [], _ => []
  | dep :: rest, seen =>
      let m := jsGet dep "marker"
      if seen.contains m then firstSeenByMarker rest seen
      else dep :: firstSeenByMarker rest (m :: seen)

/-- The step signatures the (amended) claim C2 prescribes for a synthesized
workflow: dependency-fetch steps (one per distinct target, first-seen order),
then create (saveToContext plus the create payload, with a
`_dynamicForeignKeys` array — deduplicated by marker — exactly when
dependencies were found), then list, then get, then update (only with
PUT/PATCH present and a payload field beyond the `data` wrapper), then
delete. -/
def specStepSigs (n : String) (createData updateData : List (String × JsVal))
    (hasUpdate : Bool) : List (String × Option (List (String × JsVal))) :=
  let deps := analyzeForeignKeyDependencies createData
  let singular := getSingularName n
  let ctxVar := "created_" ++ singular
  ((firstSeenTargets deps []).map fun t =>
      ("list_" ++ t, some [("saveToContext", JsVal.vstr ("existing_" ++ t))]))
  ++ [("create_" ++ singular,
       some (if deps = [] then objAssign [("saveToContext", JsVal.vstr ctxVar)] createData
             else objSet (objAssign [("saveToContext", JsVal.vstr ctxVar)] createData)
               "_dynamicForeignKeys" (.varr (firstSeenByMarker deps []))))]
  ++ [("list_" ++ n, none)]
  ++ [("get_" ++ singular, some [("fromContext", JsVal.vstr ctxVar)])]
  ++ (if hasUpdate && updateData.any (fun p => p.1 ≠ "data") then
        [("update_" ++ singular,
          some (objAssign [("fromContext", JsVal.vstr ctxVar)] updateData))]
      else [])
  ++ [("delete_" ++ singular, some [("fromContext", JsVal.vstr ctxVar)])]

/-! ### Concrete fixtures (the posts/users scenario of the specification,
plus smaller registries) -/

/-- A string/uuid property schema with no example and no enum. -/
def uuidPropSchema : JsVal :=
  .vobj [("type", .vstr "string"), ("format", .vstr "uuid")]

/-- Request body of the users create/update operations. -/
def usersRB : JsVal :=
  .vobj [("content", .vobj [("application/json", .vobj [("schema",
    .vobj [("type", .vstr "object"),
           ("properties", .vobj [("name", .vobj [("type", .vstr "string")])])])])])]

/-- Request body of the posts create operation (`authorId` is a uuid). -/
def postsRB : JsVal :=
  .vobj [("content", .vobj [("application/json", .vobj [("schema",
    .vobj [("type", .vstr "object"),
           ("properties", .vobj [
             ("title", .vobj [("type", .vstr "string")]),
             ("authorId", .vobj [("type", .vstr "string"),
                                 ("format", .vstr "uuid")])])])])])]

/-- A full-CRUD `users` endpoint (list, create, get, update, delete). -/
def usersEndpoint : Endpoint :=
  ⟨"users",
   [("GET_COLLECTION", ⟨none, "/users"⟩),
    ("POST", ⟨some usersRB, "/users"⟩),
    ("GET", ⟨none, "/users/\x7bid\x7d"⟩),
    ("PUT", ⟨some usersRB, "/users/\x7bid\x7d"⟩),
    ("DELETE", ⟨none, "/users/\x7bid\x7d"⟩)]⟩

/-- A `posts` endpoint with list, create, get and delete (no update). -/
def postsEndpoint : Endpoint :=
  ⟨"posts",
   [("GET_COLLECTION", ⟨none, "/posts"⟩),
    ("POST", ⟨some postsRB, "/posts"⟩),
    ("GET", ⟨none, "/posts/\x7bid\x7d"⟩),
    ("DELETE", ⟨none, "/posts/\x7bid\x7d"⟩)]⟩

/-- An eligible `items` endpoint whose create operation declares no request
body. -/
def itemsEndpoint : Endpoint :=
  ⟨"items",
   [("GET_COLLECTION", ⟨none, "/items"⟩),
    ("POST", ⟨none, "/items"⟩),
    ("GET", ⟨none, "/items/\x7bid\x7d"⟩),
    ("DELETE", ⟨none, "/items/\x7bid\x7d"⟩)]⟩

/-- A `logs` endpoint with only create, list and delete (no item GET). -/
def logsEndpoint : Endpoint :=
  ⟨"logs",
   [("GET_COLLECTION", ⟨none, "/logs"⟩),
    ("POST", ⟨none, "/logs"⟩),
    ("DELETE", ⟨none, "/logs/\x7bid\x7d"⟩)]⟩

/-- The workflow the synthesizer produces for `itemsEndpoint` (create step
carries only `saveToContext`: the create operation declares no body). -/
def itemsWorkflow : Workflow :=
  { name := "items_crud_workflow",
    description := "Full CRUD workflow for the items endpoint.",
    steps := [
      { action := "create_item", description := "Create a new item",
        args := some [("saveToContext", .vstr "created_item")] },
      { action := "list_items", description := "List all items to verify creation",
        args := none },
      { action := "get_item", description := "Get the created item by ID",
        args := some [("fromContext", .vstr "created_item")] },
      { action := "delete_item", description := "Delete the created item",
        args := some [("fromContext", .vstr "created_item")] }] }

/-- Recursive form of `uniqueByMarker`'s enum/findIndex filter, indexed by
the current position (used to relate it to first-seen deduplication). -/
def ubmAux (full : List JsVal) : Nat → List JsVal → List JsVal
  | _, [] => []
  | i, x :: rest =>
      if full.findIdx (fun d => jsGet d "marker" == jsGet x "marker") = i then
        x :: ubmAux full (i + 1) rest
      else ubmAux full (i + 1) rest

/-- The create sample payload synthesized for `postsEndpoint` in the
users+posts registry: the raw `data` object plus the flattened fields, with
the dynamic marker standing in for `authorId`. -/
def postsCreateData : List (String × JsVal) :=
  [("data", .vobj [("title", .vstr "Sample Workflow Title"),
                   ("authorId", .vstr "\x7b\x7bDYNAMIC_USERS_ID\x7d\x7d")]),
   ("title", .vstr "Sample Workflow Title"),
   ("authorId", .vstr "\x7b\x7bDYNAMIC_USERS_ID\x7d\x7d")]

/-- The workflow synthesized for `usersEndpoint` (update step present: the
update payload has fields beyond `data`). -/
def usersWorkflow : Workflow :=
  { name := "users_crud_workflow",
    description := "Full CRUD workflow for the users endpoint.",
    steps := [
      { action := "create_user", description := "Create a new user",
        args := some [("saveToContext", .vstr "created_user"),
                      ("data", .vobj [("name", .vstr "Sample name")]),
                      ("name", .vstr "Sample name")] },
      { action := "list_users", description := "List all users to verify creation",
        args := none },
      { action := "get_user", description := "Get the created user by ID",
        args := some [("fromContext", .vstr "created_user")] },
      { action := "update_user", description := "Update the created user",
        args := some [("fromContext", .vstr "created_user"),
                      ("data", .vobj [("name", .vstr "Sample name")]),
                      ("name", .vstr "Sample name")] },
      { action := "delete_user", description := "Delete the created user",
        args := some [("fromContext", .vstr "created_user")] }] }

/-- The workflow synthesized for `postsEndpoint` in the users+posts registry:
a dependency-fetch step, then create (with marker and `_dynamicForeignKeys`),
list, get, delete (no update: posts has no `PUT`/`PATCH`). -/
def postsWorkflow : Workflow :=
  { name := "posts_crud_workflow",
    description := "Full CRUD workflow for the posts endpoint.",
    steps := [
      { action := "list_users",
        description := "Get existing users for authorId reference",
        args := some [("saveToContext", .vstr "existing_users")] },
      { action := "create_post", description := "Create a new post",
        args := some (postsCreateData.cons ("saveToContext", .vstr "created_post")
          |>.concat ("_dynamicForeignKeys",
            .varr [.vobj [("sourceProperty", .vstr "authorId"),
                          ("targetEndpoint", .vstr "users"),
                          ("marker", .vstr "\x7b\x7bDYNAMIC_USERS_ID\x7d\x7d")]])) },
      { action := "list_posts", description := "List all posts to verify creation",
        args := none },
      { action := "get_post", description := "Get the created post by ID",
        args := some [("fromContext", .vstr "created_post")] },
      { action := "delete_post", description := "Delete the created post",
        args := some [("fromContext", .vstr "created_post")] }] }

/-- The action of one `_dynamicForeignKeys` iteration on a single field
value: when the store holds `existing_<target>` as a non-empty array, the
dependency's marker is replaced (first occurrence per string leaf) by the
first entry's `id`; otherwise the value passes through unchanged. -/
def depSubst (ctx : List (String × JsVal)) (dep : JsVal) (v : JsVal) : JsVal :=
  match objGet ctx ("existing_" ++ optToString (jsGet dep "targetEndpoint")) with
  | some (.varr (first :: _)) =>
      replaceDynamicMarker (optToString (jsGet dep "marker"))
        (optToString (jsGet first "id")) v
  | _ => v

/-- Whether one dependency's substitution is skipped: the store key is
absent, or does not hold a non-empty array. -/
def fkSkipped (ctx : List (String × JsVal)) (dep : JsVal) : Bool :=
  match objGet ctx ("existing_" ++ optToString (jsGet dep "targetEndpoint")) with
  | some (.varr (_ :: _)) => false
  | _ => true

/-- A two-dependency create payload (`authorId` against users, `categoryId`
against categories). -/
def fkTwoDepArgs : List (String × JsVal) :=
  [("authorId", .vstr "\x7b\x7bDYNAMIC_USERS_ID\x7d\x7d"),
   ("categoryId", .vstr "\x7b\x7bDYNAMIC_CATEGORIES_ID\x7d\x7d"),
   ("_dynamicForeignKeys", .varr
     [.vobj [("sourceProperty", .vstr "authorId"),
             ("targetEndpoint", .vstr "users"),
             ("marker", .vstr "\x7b\x7bDYNAMIC_USERS_ID\x7d\x7d")],
      .vobj [("sourceProperty", .vstr "categoryId"),
             ("targetEndpoint", .vstr "categories"),
             ("marker", .vstr "\x7b\x7bDYNAMIC_CATEGORIES_ID\x7d\x7d")]])]

/-- A store with one cached user and no cached categories. -/
def fkTwoDepCtx : List (String × JsVal) :=
  [("existing_users", .varr [.vobj [("id", .vstr "user-1")]])]

/-!
## Theorems
-/

/-! ### Object field lemmas -/

theorem objGet_objSet_self (o : List (String × JsVal)) (k : String) (v : JsVal) :
    objGet (objSet o k v) k = some v := by
  induction o with
  | nil => simp [objGet, objSet]
  | cons hd tl ih =>
      by_cases h : hd.1 = k <;> simp [objSet, objGet, h, ih]

theorem objGet_objSet_ne (o : List (String × JsVal)) (k k' : String) (v : JsVal)
    (h : k ≠ k') : objGet (objSet o k v) k' = objGet o k' := by
  induction o with
  | nil => simp [objGet, objSet, h]
  | cons hd tl ih =>
      obtain ⟨k0, v0⟩ := hd
      by_cases h1 : k0 = k
      · simp [objSet, objGet, h1, h, Ne.symm h]
      · by_cases h2 : k0 = k' <;> simp [objSet, objGet, h1, h2, Ne.symm h, ih]

theorem objSet_same (o : List (String × JsVal)) (k : String) (v : JsVal)
    (h : objGet o k = some v) : objSet o k v = o := by
  induction o with
  | nil => simp [objGet] at h
  | cons hd tl ih =>
      obtain ⟨k0, v0⟩ := hd
      by_cases h1 : k0 = k
      · simp [objGet, h1] at h
        simp [objSet, h1, h]
      · simp [objGet, h1] at h
        simp [objSet, h1, ih h]

theorem objGet_mem {o : List (String × JsVal)} {k : String} {v : JsVal}
    (h : objGet o k = some v) : (k, v) ∈ o := by
  induction o with
  | nil => simp [objGet] at h
  | cons hd tl ih =>
      obtain ⟨k0, v0⟩ := hd
      by_cases h1 : k0 = k
      · simp [objGet, h1] at h
        subst h1
        simp [h]
      · simp [objGet, h1] at h
        exact List.mem_cons_of_mem _ (ih h)

/-! ### Resolver step lemmas (one per branch that contains a recursive call;
stated at `fuel + 1` so that the inner call sits at the variable `fuel` and
rewriting unfolds exactly one layer) -/

theorem resolve_step_falsy (spec : JsVal) (fuel : Nat) (node : JsVal)
    (ht : jsTruthy node = false) :
    resolveSchemaReference spec (fuel + 1) node = some .vnull := by
  simp [resolveSchemaReference, ht]

theorem resolve_step_ref (spec : JsVal) (fuel : Nat) (node : JsVal) (r : String)
    (target : JsVal) (ht : jsTruthy node = true) (hr : refOf node = some (.vstr r))
    (hw : walkRefPath spec (splitRefPath r) = some target) :
    resolveSchemaReference spec (fuel + 1) node =
      resolveSchemaReference spec fuel target := by
  simp [resolveSchemaReference, ht, hr, hw]

theorem resolve_step_ref_fail (spec : JsVal) (fuel : Nat) (node : JsVal) (r : String)
    (ht : jsTruthy node = true) (hr : refOf node = some (.vstr r))
    (hw : walkRefPath spec (splitRefPath r) = none) :
    resolveSchemaReference spec (fuel + 1) node = some .vnull := by
  simp [resolveSchemaReference, ht, hr, hw]

theorem resolve_step_object (spec : JsVal) (fuel : Nat) (node : JsVal)
    (props : List (String × JsVal)) (ht : jsTruthy node = true)
    (hr : refOf node = none) (hty : jsGet node "type" = some (.vstr "object"))
    (hp : jsGet node "properties" = some (.vobj props)) :
    resolveSchemaReference spec (fuel + 1) node =
      match resolveProps spec fuel props with
      | some newProps => some (jsObjSet node "properties" (.vobj newProps))
      | none => none := by
  simp [resolveSchemaReference, ht, hr, hty, hp]

theorem resolve_step_array (spec : JsVal) (fuel : Nat) (node : JsVal) (items : JsVal)
    (ht : jsTruthy node = true) (hr : refOf node = none)
    (hty : jsGet node "type" = some (.vstr "array"))
    (hi : jsGet node "items" = some items) (hti : jsTruthy items = true) :
    resolveSchemaReference spec (fuel + 1) node =
      match resolveSchemaReference spec fuel items with
      | some ri => some (jsObjSet node "items" ri)
      | none => none := by
  have hne : jsGet node "type" ≠ some (.vstr "object") := by simp [hty]
  simp [resolveSchemaReference, ht, hr, hty, hne, hi, hti]

theorem resolveProps_cons (spec : JsVal) (fuel : Nat) (k : String) (v : JsVal)
    (rest : List (String × JsVal)) :
    resolveProps spec (fuel + 1) ((k, v) :: rest) =
      match resolveSchemaReference spec fuel v, resolveProps spec fuel rest with
      | some rv, some rr => some ((k, rv) :: rr)
      | _, _ => none := rfl

/-- Success of the resolver is monotone in the fuel parameter. -/
theorem resolve_mono_all (spec : JsVal) :
    ∀ fuel, (∀ node res, resolveSchemaReference spec fuel node = some res →
        resolveSchemaReference spec (fuel + 1) node = some res) ∧
      (∀ l res, resolveProps spec fuel l = some res →
        resolveProps spec (fuel + 1) l = some res) := by
  intro fuel
  induction fuel with
  | zero =>
      refine ⟨fun node res h => ?_, fun l res h => ?_⟩ <;>
        simp [resolveSchemaReference, resolveProps] at h
  | succ f ih =>
      obtain ⟨ihR, ihP⟩ := ih
      refine ⟨fun node res h => ?_, fun l res h => ?_⟩
      · cases ht : jsTruthy node with
        | false =>
            rw [resolve_step_falsy spec f node ht] at h
            rw [resolve_step_falsy spec (f + 1) node ht]
            exact h
        | true =>
            cases hr : refOf node with
            | some rv =>
                cases rv with
                | vstr r =>
                    cases hw : walkRefPath spec (splitRefPath r) with
                    | some target =>
                        rw [resolve_step_ref spec f node r target ht hr hw] at h
                        rw [resolve_step_ref spec (f + 1) node r target ht hr hw]
                        exact ihR _ _ h
                    | none =>
                        rw [resolve_step_ref_fail spec f node r ht hr hw] at h
                        rw [resolve_step_ref_fail spec (f + 1) node r ht hr hw]
                        exact h
                | vnull => simp [resolveSchemaReference, ht, hr] at h
                | vbool b => simp [resolveSchemaReference, ht, hr] at h
                | vnum n => simp [resolveSchemaReference, ht, hr] at h
                | varr xs => simp [resolveSchemaReference, ht, hr] at h
                | vobj o => simp [resolveSchemaReference, ht, hr] at h
            | none =>
                by_cases hty : jsGet node "type" = some (.vstr "object")
                · cases hp : jsGet node "properties" with
                  | some pv =>
                      cases pv with
                      | vobj props =>
                          rw [resolve_step_object spec f node props ht hr hty hp] at h
                          rw [resolve_step_object spec (f + 1) node props ht hr hty hp]
                          cases hrp : resolveProps spec f props with
                          | some newProps =>
                              rw [ihP _ _ hrp]
                              rw [hrp] at h
                              exact h
                          | none =>
                              rw [hrp] at h
                              simp at h
                      | vnull | vbool _ | vnum _ | vstr _ | varr _ =>
                          simp only [resolveSchemaReference, ht, hr, hty, hp] at h ⊢
                          simp at h ⊢
                          exact h
                  | none =>
                      simp [resolveSchemaReference, ht, hr, hty, hp] at h ⊢
                      exact h
                · by_cases htya : jsGet node "type" = some (.vstr "array")
                  · cases hi : jsGet node "items" with
                    | some items =>
                        cases hti : jsTruthy items with
                        | true =>
                            rw [resolve_step_array spec f node items ht hr htya hi hti] at h
                            rw [resolve_step_array spec (f + 1) node items ht hr htya hi hti]
                            cases hri : resolveSchemaReference spec f items with
                            | some ri =>
                                rw [ihR _ _ hri]
                                rw [hri] at h
                                exact h
                            | none =>
                                rw [hri] at h
                                simp at h
                        | false =>
                            simp [resolveSchemaReference, ht, hr, hty, htya, hi, hti] at h ⊢
                            exact h
                    | none =>
                        simp [resolveSchemaReference, ht, hr, hty, htya, hi] at h ⊢
                        exact h
                  · simp [resolveSchemaReference, ht, hr, hty, htya] at h ⊢
                    exact h
      · cases l with
        | nil =>
            simp [resolveProps] at h ⊢
            exact h
        | cons kv rest =>
            obtain ⟨k, v⟩ := kv
            rw [resolveProps_cons] at h
            rw [resolveProps_cons]
            cases hv : resolveSchemaReference spec f v with
            | some rv =>
                cases hrest : resolveProps spec f rest with
                | some rr =>
                    rw [ihR _ _ hv, ihP _ _ hrest]
                    rw [hv, hrest] at h
                    exact h
                | none =>
                    rw [hv, hrest] at h
                    simp at h
            | none =>
                rw [hv] at h
                simp at h

theorem jsGet_vobj {node : JsVal} {k : String} {v : JsVal} (h : jsGet node k = some v) :
    ∃ o, node = .vobj o ∧ objGet o k = some v := by
  cases node <;> simp_all [jsGet]

theorem refOf_vobj_none {o : List (String × JsVal)} {r : JsVal}
    (hn : refOf (.vobj o) = none) (hg : objGet o "$ref" = some r) :
    jsTruthy r = false := by
  simp [refOf, jsGet, hg] at hn
  simpa using hn

theorem refOf_objSet_ne (o : List (String × JsVal)) (k : String) (x : JsVal)
    (hk : k ≠ "$ref") : refOf (.vobj (objSet o k x)) = refOf (.vobj o) := by
  simp [refOf, jsGet, objGet_objSet_ne o k "$ref" x hk]

/-- No truthy `$ref` is reachable (along the traversal the resolver performs)
in any tree the resolver returns. -/
theorem resolve_noref_all (spec : JsVal) :
    ∀ fuel, (∀ node res, resolveSchemaReference spec fuel node = some res →
        ¬ TypedRefReachable res) ∧
      (∀ l res, resolveProps spec fuel l = some res →
        ∀ k v, (k, v) ∈ res → ¬ TypedRefReachable v) := by
  intro fuel
  induction fuel with
  | zero =>
      refine ⟨fun node res h => ?_, fun l res h => ?_⟩ <;>
        simp [resolveSchemaReference, resolveProps] at h
  | succ f ih =>
      obtain ⟨ihR, ihP⟩ := ih
      refine ⟨fun node res h => ?_, fun l res h => ?_⟩
      · cases ht : jsTruthy node with
        | false =>
            rw [resolve_step_falsy spec f node ht] at h
            injection h with h
            subst h
            exact fun hc => nomatch hc
        | true =>
            cases hr : refOf node with
            | some rv =>
                cases rv with
                | vstr r =>
                    cases hw : walkRefPath spec (splitRefPath r) with
                    | some target =>
                        rw [resolve_step_ref spec f node r target ht hr hw] at h
                        exact ihR _ _ h
                    | none =>
                        rw [resolve_step_ref_fail spec f node r ht hr hw] at h
                        injection h with h
                        subst h
                        exact fun hc => nomatch hc
                | vnull => simp [resolveSchemaReference, ht, hr] at h
                | vbool b => simp [resolveSchemaReference, ht, hr] at h
                | vnum n => simp [resolveSchemaReference, ht, hr] at h
                | varr xs => simp [resolveSchemaReference, ht, hr] at h
                | vobj o => simp [resolveSchemaReference, ht, hr] at h
            | none =>
                by_cases hty : jsGet node "type" = some (.vstr "object")
                · cases hp : jsGet node "properties" with
                  | some pv =>
                      cases pv with
                      | vobj props =>
                          obtain ⟨o, rfl, hgty⟩ := jsGet_vobj hty
                          rw [resolve_step_object spec f _ props ht hr hty hp] at h
                          cases hrp : resolveProps spec f props with
                          | some newProps =>
                              rw [hrp] at h
                              injection h with h
                              subst h
                              intro hc
                              cases hc with
                              | here o' r hgr htr =>
                                  rw [objGet_objSet_ne _ _ _ _ (by decide)] at hgr
                                  rw [refOf_vobj_none hr hgr] at htr
                                  exact Bool.false_ne_true htr
                              | viaProps o' props' k v hty' hpp hmem hre =>
                                  rw [objGet_objSet_self] at hpp
                                  injection hpp with hpp
                                  injection hpp with hpp
                                  subst hpp
                                  exact ihP _ _ hrp k v hmem hre
                              | viaItems o' items hty' hgi hti hre =>
                                  rw [objGet_objSet_ne _ _ _ _ (by decide)] at hty'
                                  rw [jsGet] at hty
                                  rw [hty] at hty'
                                  simp at hty'
                          | none =>
                              rw [hrp] at h
                              simp at h
                      | vnull | vbool _ | vnum _ | vstr _ | varr _ =>
                          obtain ⟨o, rfl, hgty⟩ := jsGet_vobj hty
                          simp only [resolveSchemaReference, ht, hr, hty, hp] at h
                          simp at h
                          subst h
                          intro hc
                          cases hc with
                          | here o' r hgr htr =>
                              rw [refOf_vobj_none hr hgr] at htr
                              exact Bool.false_ne_true htr
                          | viaProps o' props' k v hty' hpp hmem hre =>
                              rw [jsGet] at hp
                              rw [hp] at hpp
                              simp at hpp
                          | viaItems o' items hty' hgi hti hre =>
                              rw [hgty] at hty'
                              simp at hty'
                  | none =>
                      obtain ⟨o, rfl, hgty⟩ := jsGet_vobj hty
                      simp only [resolveSchemaReference, ht, hr, hty, hp] at h
                      simp at h
                      subst h
                      intro hc
                      cases hc with
                      | here o' r hgr htr =>
                          rw [refOf_vobj_none hr hgr] at htr
                          exact Bool.false_ne_true htr
                      | viaProps o' props' k v hty' hpp hmem hre =>
                          rw [jsGet] at hp
                          rw [hp] at hpp
                          simp at hpp
                      | viaItems o' items hty' hgi hti hre =>
                          rw [hgty] at hty'
                          simp at hty'
                · by_cases htya : jsGet node "type" = some (.vstr "array")
                  · cases hi : jsGet node "items" with
                    | some items =>
                        obtain ⟨o, rfl, hgty⟩ := jsGet_vobj htya
                        cases hti : jsTruthy items with
                        | true =>
                            rw [resolve_step_array spec f _ items ht hr htya hi hti] at h
                            cases hri : resolveSchemaReference spec f items with
                            | some ri =>
                                rw [hri] at h
                                injection h with h
                                subst h
                                intro hc
                                cases hc with
                                | here o' r hgr htr =>
                                    rw [objGet_objSet_ne _ _ _ _ (by decide)] at hgr
                                    rw [refOf_vobj_none hr hgr] at htr
                                    exact Bool.false_ne_true htr
                                | viaProps o' props' k v hty' hpp hmem hre =>
                                    rw [objGet_objSet_ne _ _ _ _ (by decide)] at hty'
                                    rw [hgty] at hty'
                                    simp at hty'
                                | viaItems o' items' hty' hgi hti' hre =>
                                    rw [objGet_objSet_self] at hgi
                                    injection hgi with hgi
                                    subst hgi
                                    exact ihR _ _ hri hre
                            | none =>
                                rw [hri] at h
                                simp at h
                        | false =>
                            simp only [resolveSchemaReference, ht, hr, hty, htya, hi, hti] at h
                            simp at h
                            subst h
                            intro hc
                            cases hc with
                            | here o' r hgr htr =>
                                rw [refOf_vobj_none hr hgr] at htr
                                exact Bool.false_ne_true htr
                            | viaProps o' props' k v hty' hpp hmem hre =>
                                rw [hgty] at hty'
                                simp at hty'
                            | viaItems o' items' hty' hgi hti' hre =>
                                rw [jsGet] at hi
                                rw [hi] at hgi
                                injection hgi with hgi
                                subst hgi
                                rw [hti] at hti'
                                exact Bool.false_ne_true hti'
                    | none =>
                        obtain ⟨o, rfl, hgty⟩ := jsGet_vobj htya
                        simp only [resolveSchemaReference, ht, hr, hty, htya, hi] at h
                        simp at h
                        subst h
                        intro hc
                        cases hc with
                        | here o' r hgr htr =>
                            rw [refOf_vobj_none hr hgr] at htr
                            exact Bool.false_ne_true htr
                        | viaProps o' props' k v hty' hpp hmem hre =>
                            rw [hgty] at hty'
                            simp at hty'
                        | viaItems o' items' hty' hgi hti' hre =>
                            rw [jsGet] at hi
                            rw [hi] at hgi
                            simp at hgi
                  · simp only [resolveSchemaReference, ht, hr, hty, htya] at h
                    simp at h
                    subst h
                    intro hc
                    cases hc with
                    | here o' r hgr htr =>
                        rw [refOf_vobj_none hr hgr] at htr
                        exact Bool.false_ne_true htr
                    | viaProps o' props' k v hty' hpp hmem hre =>
                        rw [jsGet] at hty
                        exact hty hty'
                    | viaItems o' items' hty' hgi hti' hre =>
                        rw [jsGet] at htya
                        exact htya hty'
      · cases l with
        | nil =>
            simp [resolveProps] at h
            subst h
            intro k v hmem
            simp at hmem
        | cons kv rest =>
            obtain ⟨k0, v0⟩ := kv
            rw [resolveProps_cons] at h
            cases hv : resolveSchemaReference spec f v0 with
            | some rv =>
                cases hrest : resolveProps spec f rest with
                | some rr =>
                    rw [hv, hrest] at h
                    injection h with h
                    subst h
                    intro k v hmem
                    cases hmem with
                    | head =>
                        exact ihR _ _ hv
                    | tail _ hmem =>
                        exact ihP _ _ hrest k v hmem
                | none =>
                    rw [hv, hrest] at h
                    simp at h
            | none =>
                rw [hv] at h
                simp at h

theorem objSet_objSet_self (o : List (String × JsVal)) (k : String) (v : JsVal) :
    objSet (objSet o k v) k v = objSet o k v :=
  objSet_same _ _ _ (objGet_objSet_self o k v)

/-- Resolution is idempotent: a tree the resolver returns is a fixed point of
the resolver (at the same fuel). -/
theorem resolve_idem_all (spec : JsVal) :
    ∀ fuel, (∀ node res, resolveSchemaReference spec fuel node = some res →
        resolveSchemaReference spec fuel res = some res) ∧
      (∀ l res, resolveProps spec fuel l = some res →
        resolveProps spec fuel res = some res) := by
  intro fuel
  induction fuel with
  | zero =>
      refine ⟨fun node res h => ?_, fun l res h => ?_⟩ <;>
        simp [resolveSchemaReference, resolveProps] at h
  | succ f ih =>
      obtain ⟨ihR, ihP⟩ := ih
      refine ⟨fun node res h => ?_, fun l res h => ?_⟩
      · cases ht : jsTruthy node with
        | false =>
            rw [resolve_step_falsy spec f node ht] at h
            injection h with h
            subst h
            exact resolve_step_falsy spec f .vnull rfl
        | true =>
            cases hr : refOf node with
            | some rv =>
                cases rv with
                | vstr r =>
                    cases hw : walkRefPath spec (splitRefPath r) with
                    | some target =>
                        rw [resolve_step_ref spec f node r target ht hr hw] at h
                        exact (resolve_mono_all spec f).1 _ _ (ihR _ _ h)
                    | none =>
                        rw [resolve_step_ref_fail spec f node r ht hr hw] at h
                        injection h with h
                        subst h
                        exact resolve_step_falsy spec f .vnull rfl
                | vnull => simp [resolveSchemaReference, ht, hr] at h
                | vbool b => simp [resolveSchemaReference, ht, hr] at h
                | vnum n => simp [resolveSchemaReference, ht, hr] at h
                | varr xs => simp [resolveSchemaReference, ht, hr] at h
                | vobj o => simp [resolveSchemaReference, ht, hr] at h
            | none =>
                by_cases hty : jsGet node "type" = some (.vstr "object")
                · cases hp : jsGet node "properties" with
                  | some pv =>
                      cases pv with
                      | vobj props =>
                          obtain ⟨o, rfl, hgty⟩ := jsGet_vobj hty
                          rw [resolve_step_object spec f _ props ht hr hty hp] at h
                          cases hrp : resolveProps spec f props with
                          | some newProps =>
                              rw [hrp] at h
                              injection h with h
                              subst h
                              show resolveSchemaReference spec (f + 1)
                                (.vobj (objSet o "properties" (.vobj newProps))) = _
                              have hr' : refOf (.vobj (objSet o "properties" (.vobj newProps)))
                                  = none := by
                                rw [refOf_objSet_ne _ _ _ (by decide)]
                                exact hr
                              have hty' : jsGet (.vobj (objSet o "properties" (.vobj newProps)))
                                  "type" = some (.vstr "object") := by
                                simp only [jsGet]
                                rw [objGet_objSet_ne _ _ _ _ (by decide)]
                                exact hgty
                              have hp' : jsGet (.vobj (objSet o "properties" (.vobj newProps)))
                                  "properties" = some (.vobj newProps) := by
                                simp only [jsGet]
                                exact objGet_objSet_self _ _ _
                              rw [resolve_step_object spec f _ newProps (by simp [jsTruthy]) hr' hty' hp']
                              rw [ihP _ _ hrp]
                              simp [jsObjSet, objSet_objSet_self]
                          | none =>
                              rw [hrp] at h
                              simp at h
                      | vnull | vbool _ | vnum _ | vstr _ | varr _ =>
                          obtain ⟨o, rfl, hgty⟩ := jsGet_vobj hty
                          simp only [resolveSchemaReference, ht, hr, hty, hp] at h
                          simp at h
                          subst h
                          simp [resolveSchemaReference, ht, hr, hty, hp]
                  | none =>
                      obtain ⟨o, rfl, hgty⟩ := jsGet_vobj hty
                      simp only [resolveSchemaReference, ht, hr, hty, hp] at h
                      simp at h
                      subst h
                      simp [resolveSchemaReference, ht, hr, hty, hp]
                · by_cases htya : jsGet node "type" = some (.vstr "array")
                  · cases hi : jsGet node "items" with
                    | some items =>
                        obtain ⟨o, rfl, hgty⟩ := jsGet_vobj htya
                        cases hti : jsTruthy items with
                        | true =>
                            rw [resolve_step_array spec f _ items ht hr htya hi hti] at h
                            cases hri : resolveSchemaReference spec f items with
                            | some ri =>
                                rw [hri] at h
                                injection h with h
                                subst h
                                show resolveSchemaReference spec (f + 1)
                                  (.vobj (objSet o "items" ri)) = _
                                have hr' : refOf (.vobj (objSet o "items" ri)) = none := by
                                  rw [refOf_objSet_ne _ _ _ (by decide)]
                                  exact hr
                                have htya' : jsGet (.vobj (objSet o "items" ri)) "type"
                                    = some (.vstr "array") := by
                                  simp only [jsGet]
                                  rw [objGet_objSet_ne _ _ _ _ (by decide)]
                                  exact hgty
                                have hi' : jsGet (.vobj (objSet o "items" ri)) "items"
                                    = some ri := by
                                  simp only [jsGet]
                                  exact objGet_objSet_self _ _ _
                                have hty2 : jsGet (.vobj (objSet o "items" ri)) "type"
                                    ≠ some (.vstr "object") := by
                                  rw [htya']
                                  simp
                                cases hti' : jsTruthy ri with
                                | true =>
                                    rw [resolve_step_array spec f _ ri (by simp [jsTruthy]) hr' htya' hi' hti']
                                    rw [ihR _ _ hri]
                                    simp [jsObjSet, objSet_objSet_self]
                                | false =>
                                    have htv : jsTruthy (.vobj (objSet o "items" ri)) = true := by
                                      simp [jsTruthy]
                                    simp [resolveSchemaReference, htv, hr', hty2, htya',
                                      hi', hti', jsObjSet]
                            | none =>
                                rw [hri] at h
                                simp at h
                        | false =>
                            simp only [resolveSchemaReference, ht, hr, hty, htya, hi, hti] at h
                            simp at h
                            subst h
                            simp [resolveSchemaReference, ht, hr, hty, htya, hi, hti]
                    | none =>
                        obtain ⟨o, rfl, hgty⟩ := jsGet_vobj htya
                        simp only [resolveSchemaReference, ht, hr, hty, htya, hi] at h
                        simp at h
                        subst h
                        simp [resolveSchemaReference, ht, hr, hty, htya, hi]
                  · simp only [resolveSchemaReference, ht, hr, hty, htya] at h
                    simp at h
                    subst h
                    simp [resolveSchemaReference, ht, hr, hty, htya]
      · cases l with
        | nil =>
            simp [resolveProps] at h
            subst h
            simp [resolveProps]
        | cons kv rest =>
            obtain ⟨k0, v0⟩ := kv
            rw [resolveProps_cons] at h
            cases hv : resolveSchemaReference spec f v0 with
            | some rv =>
                cases hrest : resolveProps spec f rest with
                | some rr =>
                    rw [hv, hrest] at h
                    injection h with h
                    subst h
                    rw [resolveProps_cons]
                    rw [ihR _ _ hv, ihP _ _ hrest]
                | none =>
                    rw [hv, hrest] at h
                    simp at h
            | none =>
                rw [hv] at h
                simp at h

theorem objGet_key_mem {o : List (String × JsVal)} {k : String} {v : JsVal}
    (h : objGet o k = some v) : k ∈ o.map Prod.fst :=
  List.mem_map.mpr ⟨(k, v), objGet_mem h, rfl⟩

theorem objGet_objAssign (a b : List (String × JsVal))
    (hb : (b.map Prod.fst).Nodup) (k : String) :
    objGet (objAssign a b) k = (objGet b k).or (objGet a k) := by
  induction b generalizing a with
  | nil => simp [objAssign, objGet]
  | cons kv rest ih =>
      obtain ⟨k0, v0⟩ := kv
      have hrest : (rest.map Prod.fst).Nodup := by
        simpa using (List.nodup_cons.mp (by simpa using hb)).2
      have hstep : objAssign a ((k0, v0) :: rest) = objAssign (objSet a k0 v0) rest := rfl
      rw [hstep, ih _ hrest]
      by_cases hk : k0 = k
      · subst hk
        have hnone : objGet rest k0 = none := by
          cases hmem : objGet rest k0 with
          | none => rfl
          | some v =>
              have : k0 ∈ rest.map Prod.fst := objGet_key_mem hmem
              exact absurd this (List.nodup_cons.mp (by simpa using hb)).1
        simp [objGet, hnone, objGet_objSet_self]
      · simp [objGet, hk, objGet_objSet_ne _ _ _ _ hk]

theorem objGet_objDelete_self (o : List (String × JsVal)) (k : String) :
    objGet (objDelete o k) k = none := by
  induction o with
  | nil => simp [objDelete, objGet]
  | cons hd tl ih =>
      obtain ⟨k0, v0⟩ := hd
      by_cases h : k0 = k <;> simp [objDelete, objGet, h, ih]

theorem objGet_objDelete_ne (o : List (String × JsVal)) (k k' : String)
    (h : k ≠ k') : objGet (objDelete o k) k' = objGet o k' := by
  induction o with
  | nil => simp [objDelete, objGet]
  | cons hd tl ih =>
      obtain ⟨k0, v0⟩ := hd
      by_cases h1 : k0 = k
      · subst h1
        simp [objDelete, objGet, h, Ne.symm h, ih]
      · by_cases h2 : k0 = k' <;>
          simp [objDelete, objGet, h1, h2, h, Ne.symm h, ih]

theorem objGet_map_entries (o : List (String × JsVal))
    (f : String → JsVal → JsVal) (k : String) :
    objGet (o.map fun kv => (kv.1, f kv.1 kv.2)) k = (objGet o k).map (f k) := by
  induction o with
  | nil => simp [objGet]
  | cons hd tl ih =>
      obtain ⟨k0, v0⟩ := hd
      by_cases h : k0 = k <;> simp [objGet, h, ih]

theorem option_or_absorb (a b : Option JsVal) : a.or (b.or a) = a.or b := by
  cases a <;> cases b <;> rfl

/-! ### Claim C7 -/

/-- C7 (counterexample): resolution does not remove every `$ref` reachable
through `properties`/`items`.  A schema whose `properties` object nests a
resolvable `$ref` but which lacks a `type: "object"` annotation is returned
unchanged, so the returned tree still contains a `$ref` reachable through
`properties`, falsifying the claimed invariant. -/
theorem C7_counterexample :
    resolveSchemaReference docWithDefs 5 typelessPropsSchema = some typelessPropsSchema ∧
    ClaimRefReachable typelessPropsSchema := by
  refine ⟨by decide, ?_⟩
  show ClaimRefReachable
    (.vobj [("properties", .vobj [("a", .vobj [("$ref", .vstr "#/defs/a")])])])
  refine ClaimRefReachable.viaProps _ [("a", .vobj [("$ref", .vstr "#/defs/a")])] "a"
    (.vobj [("$ref", .vstr "#/defs/a")]) (by decide) (by simp) ?_
  exact ClaimRefReachable.here _ (.vstr "#/defs/a") (by decide)

/-- C7 (amended): whenever resolution succeeds (returns a tree rather than
running out of fuel, which models the JS non-termination on cyclic `$ref`
chains), the returned tree contains no truthy `$ref` reachable by top-down
traversal through the `properties` of nodes with `type: "object"` or the
truthy `items` of nodes with `type: "array"` (nodes without such a `type`
annotation are not traversed, which is where the original claim fails), and
resolution is idempotent: resolving an already-resolved tree returns the same
tree. -/
theorem C7_amended (spec : JsVal) (fuel : Nat) (x y : JsVal)
    (h : resolveSchemaReference spec fuel x = some y) :
    ¬ TypedRefReachable y ∧ resolveSchemaReference spec fuel y = some y :=
  ⟨(resolve_noref_all spec fuel).1 x y h, (resolve_idem_all spec fuel).1 x y h⟩

/-- Witness for `C7_amended`: dereferencing `#/components/schemas/User` in
`userSchemaDoc` succeeds and the conclusions hold for its result. -/
theorem C7_amended_witness :
    ¬ TypedRefReachable resolvedUserSchema ∧
    resolveSchemaReference userSchemaDoc 10 resolvedUserSchema = some resolvedUserSchema :=
  C7_amended userSchemaDoc 10 (.vobj [("$ref", .vstr "#/components/schemas/User")])
    resolvedUserSchema (by decide)

/-! ### Claim C8 -/

/-- C8 (counterexample): for the endpoint name `address`, the workflow-step
singularization (`getSingularName`, which keeps names ending in `ss`) and the
tool-name singularization (`generateToolName`, which always strips a trailing
`s`) disagree: the create step action would be `create_address` while the
generated tool is named `create_addres`. -/
theorem C8_counterexample :
    ¬ ("create_" ++ getSingularName "address" = generateToolName "POST" "address") := by
  decide

/-- C8 (amended): for every endpoint name that does not end in a double `s`,
the two singularizations agree, so each item-operation step action
(`create_/get_/update_/patch_/delete_` applied to `getSingularName`) equals
the tool name generated for that endpoint and operation key; names ending in
`ss` are the exception, where the tool name strips the final `s` but the
workflow step action does not. -/
theorem C8_amended (name : String) (h : sEndsWith name "ss" = false) :
    generateToolName "POST" name = "create_" ++ getSingularName name ∧
    generateToolName "GET" name = "get_" ++ getSingularName name ∧
    generateToolName "PUT" name = "update_" ++ getSingularName name ∧
    generateToolName "PATCH" name = "patch_" ++ getSingularName name ∧
    generateToolName "DELETE" name = "delete_" ++ getSingularName name := by
  by_cases hs : sEndsWith name "s" = true <;>
    simp [generateToolName, getSingularName, h, hs]

/-- Witness for `C8_amended` at the concrete endpoint name `users`. -/
theorem C8_amended_witness :
    generateToolName "POST" "users" = "create_" ++ getSingularName "users" ∧
    generateToolName "GET" "users" = "get_" ++ getSingularName "users" ∧
    generateToolName "PUT" "users" = "update_" ++ getSingularName "users" ∧
    generateToolName "PATCH" "users" = "patch_" ++ getSingularName "users" ∧
    generateToolName "DELETE" "users" = "delete_" ++ getSingularName "users" :=
  C8_amended "users" (by decide)

/-! ### Claim C4 -/

/-- C4 (counterexample): an *explicitly supplied* falsy `id` does not
override the stored one.  With call arguments
`{fromContext: "k", id: ""}` and stored object `{id: "abc", name: "n"}`,
the claim requires the explicit `id` (the empty string) to win, but the code
tests `!args.id` by truthiness and adopts the stored `"abc"`. -/
theorem C4_counterexample :
    objGet (resolveContextReferences [("fromContext", .vstr "k"), ("id", .vstr "")]
        [("k", .vobj [("id", .vstr "abc"), ("name", .vstr "n")])]) "id"
      = some (.vstr "abc") ∧
    ¬ objGet (resolveContextReferences [("fromContext", .vstr "k"), ("id", .vstr "")]
        [("k", .vobj [("id", .vstr "abc"), ("name", .vstr "n")])]) "id"
      = some (.vstr "") := by
  constructor <;> decide

/-- C4 (amended): when `fromContext` names a key held by the store and the
stored value is an object, the resolved arguments are the stored fields
merged with the explicit call arguments, the explicit ones overriding —
except for `id`: a *truthy* stored `id` overrides a falsy (or absent)
explicit `id`; only a truthy explicit `id` wins.  When the named key is
absent from the store the arguments pass through unchanged. -/
theorem C4_amended (args ctx cd : List (String × JsVal)) (key : String)
    (hfc : objGet args "fromContext" = some (.vstr key)) (hkey : key ≠ "")
    (hd1 : objGet args "_dynamicForeignKeys" = none)
    (hd2 : objGet args "_dynamicAuthorId" = none)
    (hargs : (args.map Prod.fst).Nodup) (hcdn : (cd.map Prod.fst).Nodup) :
    (objGet ctx key = some (.vobj cd) →
      (∀ k', k' ≠ "id" →
          objGet (resolveContextReferences args ctx) k'
            = ((objGet args k').or (objGet cd k')))
      ∧ (optTruthy (objGet args "id") = true →
          objGet (resolveContextReferences args ctx) "id" = objGet args "id")
      ∧ (optTruthy (objGet args "id") = false → optTruthy (objGet cd "id") = true →
          objGet (resolveContextReferences args ctx) "id" = objGet cd "id")
      ∧ (optTruthy (objGet args "id") = false → optTruthy (objGet cd "id") = false →
          objGet (resolveContextReferences args ctx) "id"
            = ((objGet args "id").or (objGet cd "id"))))
    ∧ (objGet ctx key = none → resolveContextReferences args ctx = args) := by
  have hkt : jsTruthy (.vstr key) = true := by simp [jsTruthy, hkey]
  constructor
  · intro hctx
    have hres : resolveContextReferences args ctx
        = (match objGet cd "id" with
           | some idv =>
               if jsTruthy idv && !optTruthy (objGet args "id") then
                 objSet (objAssign (objAssign args cd) args) "id" idv
               else objAssign (objAssign args cd) args
           | none => objAssign (objAssign args cd) args) := by
      have h1 : applyFromContext args ctx
          = (match objGet cd "id" with
             | some idv =>
                 if jsTruthy idv && !optTruthy (objGet args "id") then
                   objSet (objAssign (objAssign args cd) args) "id" idv
                 else objAssign (objAssign args cd) args
             | none => objAssign (objAssign args cd) args) := by
        simp [applyFromContext, hfc, hkt, hctx]
      have h2 : ∀ r, applyDynamicFks args ctx r = r := by
        intro r
        simp [applyDynamicFks, hd1]
      have h3 : ∀ r, applyLegacyAuthorId args ctx r = r := by
        intro r
        simp [applyLegacyAuthorId, hd2]
      rw [resolveContextReferences, h2, h3, h1]
    have hmerged : ∀ k, objGet (objAssign (objAssign args cd) args) k
        = (objGet args k).or (objGet cd k) := by
      intro k
      rw [objGet_objAssign _ _ hargs, objGet_objAssign _ _ hcdn, option_or_absorb]
    refine ⟨?_, ?_, ?_, ?_⟩
    · intro k' hk'
      rw [hres]
      cases hcid : objGet cd "id" with
      | none => simpa using hmerged k'
      | some idv =>
          by_cases hcond : jsTruthy idv && !optTruthy (objGet args "id")
          · simp only [hcond, if_true]
            rw [objGet_objSet_ne _ _ _ _ (Ne.symm hk')]
            exact hmerged k'
          · simp only [Bool.not_eq_true] at hcond
            simp only [hcond, Bool.false_eq_true, if_false]
            exact hmerged k'
    · intro hidt
      rw [hres]
      obtain ⟨v, hv⟩ : ∃ v, objGet args "id" = some v := by
        cases hvv : objGet args "id" with
        | none => rw [hvv] at hidt; simp [optTruthy] at hidt
        | some v => exact ⟨v, rfl⟩
      have hor : (objGet args "id").or (objGet cd "id") = objGet args "id" := by
        rw [hv]; rfl
      cases hcid : objGet cd "id" with
      | none => rw [hmerged "id", hor]
      | some idv =>
          have hcond : (jsTruthy idv && !optTruthy (objGet args "id")) = false := by
            simp [hidt]
          simp only [hcond, Bool.false_eq_true, if_false]
          rw [hmerged "id", hor]
    · intro hidf hcidt
      rw [hres]
      obtain ⟨idv, hcid⟩ : ∃ v, objGet cd "id" = some v := by
        cases hvv : objGet cd "id" with
        | none => rw [hvv] at hcidt; simp [optTruthy] at hcidt
        | some v => exact ⟨v, rfl⟩
      rw [hcid] at hcidt
      have htr : jsTruthy idv = true := by simpa [optTruthy] using hcidt
      simp only [hcid, htr, hidf, Bool.not_false, Bool.and_self, if_true]
      rw [objGet_objSet_self]
    · intro hidf hcidf
      rw [hres]
      cases hcid : objGet cd "id" with
      | none => rw [hmerged "id", hcid]
      | some idv =>
          rw [hcid] at hcidf
          have htr : jsTruthy idv = false := by simpa [optTruthy] using hcidf
          simp only [hcid, htr, Bool.false_and, Bool.false_eq_true, if_false]
          rw [hmerged "id", hcid]
  · intro hctx
    have h2 : ∀ r, applyDynamicFks args ctx r = r := by
      intro r
      simp [applyDynamicFks, hd1]
    have h3 : ∀ r, applyLegacyAuthorId args ctx r = r := by
      intro r
      simp [applyLegacyAuthorId, hd2]
    rw [resolveContextReferences, h2, h3]
    simp [applyFromContext, hfc, hkt, hctx]

/-- Witness for `C4_amended`: a call `{fromContext: "k", name: "mine"}`
against a store holding `{id: "abc", name: "n", extra: 7}` at `k`. -/
theorem C4_amended_witness :
    objGet (resolveContextReferences [("fromContext", .vstr "k"), ("name", .vstr "mine")]
        [("k", .vobj [("id", .vstr "abc"), ("name", .vstr "n"), ("extra", .vnum 7)])])
        "name" = some (.vstr "mine") ∧
    objGet (resolveContextReferences [("fromContext", .vstr "k"), ("name", .vstr "mine")]
        [("k", .vobj [("id", .vstr "abc"), ("name", .vstr "n"), ("extra", .vnum 7)])])
        "id" = some (.vstr "abc") := by
  have h := C4_amended [("fromContext", .vstr "k"), ("name", .vstr "mine")]
    [("k", .vobj [("id", .vstr "abc"), ("name", .vstr "n"), ("extra", .vnum 7)])]
    [("id", .vstr "abc"), ("name", .vstr "n"), ("extra", .vnum 7)] "k"
    (by decide) (by decide) (by decide) (by decide) (by decide) (by decide)
  obtain ⟨hobj, -⟩ := h
  obtain ⟨hframe, -, hadopt, -⟩ := hobj (by decide)
  exact ⟨by rw [hframe "name" (by decide)]; rfl,
         by rw [hadopt (by decide) (by decide)]; rfl⟩

theorem fkmap_eta (f : JsVal → JsVal) :
    (fun kv : String × JsVal => if kv.1 = "_dynamicForeignKeys" then kv
        else (kv.1, f kv.2))
      = (fun kv : String × JsVal => (kv.1,
          if kv.1 = "_dynamicForeignKeys" then kv.2 else f kv.2)) := by
  funext kv
  obtain ⟨k0, v0⟩ := kv
  by_cases hkv : k0 = "_dynamicForeignKeys" <;> simp [hkv]

theorem objGet_fkmap (o : List (String × JsVal)) (f : JsVal → JsVal) (k : String)
    (hk : k ≠ "_dynamicForeignKeys") :
    objGet (o.map fun kv => if kv.1 = "_dynamicForeignKeys" then kv
        else (kv.1, f kv.2)) k
      = (objGet o k).map f := by
  rw [fkmap_eta]
  rw [objGet_map_entries o (fun k0 v0 => if k0 = "_dynamicForeignKeys" then v0
    else f v0) k]
  simp [hk]

/-- One `_dynamicForeignKeys` iteration, viewed per field: every field except
the flag itself gets `depSubst` applied to its value. -/
theorem applyFkDep_map (ctx resolved : List (String × JsVal)) (dep : JsVal) :
    applyFkDep ctx resolved dep
      = resolved.map fun kv => if kv.1 = "_dynamicForeignKeys" then kv
          else (kv.1, depSubst ctx dep kv.2) := by
  have hid : ∀ r : List (String × JsVal),
      (r.map fun kv : String × JsVal =>
        if kv.1 = "_dynamicForeignKeys" then kv else (kv.1, kv.2)) = r := by
    intro r
    have hfun : (fun kv : String × JsVal =>
        if kv.1 = "_dynamicForeignKeys" then kv else (kv.1, kv.2)) = id := by
      funext kv
      by_cases h : kv.1 = "_dynamicForeignKeys" <;> simp [h]
    rw [hfun, List.map_id]
  unfold applyFkDep depSubst
  cases hctx : objGet ctx ("existing_" ++ optToString (jsGet dep "targetEndpoint")) with
  | none => simp only [hctx]; exact (hid resolved).symm
  | some v =>
      cases v with
      | varr xs =>
          cases xs with
          | nil => simp only [hctx]; exact (hid resolved).symm
          | cons first rest => simp only [hctx]
      | vnull => simp only [hctx]; exact (hid resolved).symm
      | vbool b => simp only [hctx]; exact (hid resolved).symm
      | vnum n => simp only [hctx]; exact (hid resolved).symm
      | vstr str => simp only [hctx]; exact (hid resolved).symm
      | vobj o2 => simp only [hctx]; exact (hid resolved).symm

/-- A skipped dependency leaves the arguments untouched. -/
theorem applyFkDep_skip (ctx resolved : List (String × JsVal)) (dep : JsVal)
    (h : fkSkipped ctx dep = true) : applyFkDep ctx resolved dep = resolved := by
  unfold fkSkipped at h
  unfold applyFkDep
  cases hctx : objGet ctx ("existing_" ++ optToString (jsGet dep "targetEndpoint")) with
  | none => simp only [hctx]
  | some v =>
      cases v with
      | varr xs =>
          cases xs with
          | nil => simp only [hctx]
          | cons first rest =>
              rw [hctx] at h
              exact Bool.noConfusion h
      | vnull => simp only [hctx]
      | vbool b => simp only [hctx]
      | vnum n => simp only [hctx]
      | vstr str => simp only [hctx]
      | vobj o2 => simp only [hctx]

/-- The `_dynamicForeignKeys` loop, viewed per field: each kept field's final
value is the in-order fold of the per-dependency substitutions over its
original value. -/
theorem objGet_foldl_fkdeps (ctx : List (String × JsVal)) :
    ∀ (deps : List JsVal) (resolved : List (String × JsVal)) (k : String) (v : JsVal),
      k ≠ "_dynamicForeignKeys" → objGet resolved k = some v →
      objGet (deps.foldl (applyFkDep ctx) resolved) k
        = some (deps.foldl (fun acc dep => depSubst ctx dep acc) v) := by
  intro deps
  induction deps with
  | nil => intro resolved k v hk hv; simpa using hv
  | cons dep rest ih =>
      intro resolved k v hk hv
      simp only [List.foldl_cons]
      refine ih _ k (depSubst ctx dep v) hk ?_
      rw [applyFkDep_map, objGet_fkmap _ _ _ hk, hv]
      rfl

/-- When every dependency is skipped, the loop is the identity. -/
theorem foldl_fkdeps_skip (ctx : List (String × JsVal)) :
    ∀ (deps : List JsVal) (resolved : List (String × JsVal)),
      (∀ dep ∈ deps, fkSkipped ctx dep = true) →
      deps.foldl (applyFkDep ctx) resolved = resolved := by
  intro deps
  induction deps with
  | nil => intro r _; rfl
  | cons dep rest ih =>
      intro r h
      simp only [List.foldl_cons]
      rw [applyFkDep_skip _ _ _ (h dep (List.mem_cons_self _ _))]
      exact ih r (fun d hd => h d (List.mem_cons_of_mem _ hd))

/-! ### Claim C3 -/

/-- C3 (counterexample): marker substitution does not replace *every*
occurrence of the marker in the argument tree.  `String.replace` with a
string pattern replaces only the first occurrence per string, so a field
holding the marker twice keeps the second occurrence (and the claimed
full substitution result `"u1u1"` is not produced). -/
theorem C3_counterexample :
    resolveContextReferences
        [("note", .vstr "\x7b\x7bDYNAMIC_USERS_ID\x7d\x7d\x7b\x7bDYNAMIC_USERS_ID\x7d\x7d"),
         ("_dynamicForeignKeys", .varr [fkDepUsersNote])]
        [("existing_users", .varr [.vobj [("id", .vstr "u1")]])]
      = [("note", .vstr "u1\x7b\x7bDYNAMIC_USERS_ID\x7d\x7d")] ∧
    ¬ resolveContextReferences
        [("note", .vstr "\x7b\x7bDYNAMIC_USERS_ID\x7d\x7d\x7b\x7bDYNAMIC_USERS_ID\x7d\x7d"),
         ("_dynamicForeignKeys", .varr [fkDepUsersNote])]
        [("existing_users", .varr [.vobj [("id", .vstr "u1")]])]
      = [("note", .vstr "u1u1")] := by
  constructor <;> decide

/-- C3 (amended): during context resolution with `_dynamicForeignKeys` a
list of dependencies (and no `fromContext` / legacy flag): the flag is absent
from the final arguments; every other field's final value is the in-order
fold, over all listed dependencies, of the per-dependency substitution
`depSubst` applied to its original value — where, for each dependency, if
the store holds `existing_<target>` as a non-empty list, `depSubst` replaces
the *first* occurrence of the dependency's marker within every string leaf
by the first entry's `id`, and if the key is absent or the list is empty the
dependency is silently skipped (`depSubst` is the identity); when every
dependency is skipped, the arguments pass through unchanged except for the
deleted flag. -/
theorem C3_amended (args ctx : List (String × JsVal)) (deps : List JsVal)
    (hdfk : objGet args "_dynamicForeignKeys" = some (.varr deps))
    (hfc : objGet args "fromContext" = none)
    (hleg : objGet args "_dynamicAuthorId" = none) :
    objGet (resolveContextReferences args ctx) "_dynamicForeignKeys" = none
    ∧ (∀ k v, k ≠ "_dynamicForeignKeys" → objGet args k = some v →
        objGet (resolveContextReferences args ctx) k
          = some (deps.foldl (fun acc dep => depSubst ctx dep acc) v))
    ∧ (∀ dep t m first rest idv,
        jsGet dep "targetEndpoint" = some (.vstr t) →
        jsGet dep "marker" = some (.vstr m) →
        objGet ctx ("existing_" ++ t) = some (.varr (first :: rest)) →
        jsGet first "id" = some idv →
        ∀ v, depSubst ctx dep v = replaceDynamicMarker m (jsToString idv) v)
    ∧ (∀ dep t,
        jsGet dep "targetEndpoint" = some (.vstr t) →
        (objGet ctx ("existing_" ++ t) = none ∨
          objGet ctx ("existing_" ++ t) = some (.varr [])) →
        fkSkipped ctx dep = true ∧ ∀ v, depSubst ctx dep v = v)
    ∧ ((∀ dep ∈ deps, fkSkipped ctx dep = true) →
        resolveContextReferences args ctx = objDelete args "_dynamicForeignKeys") := by
  have hres : resolveContextReferences args ctx
      = objDelete (deps.foldl (applyFkDep ctx) args) "_dynamicForeignKeys" := by
    have h1 : applyFromContext args ctx = args := by
      simp [applyFromContext, hfc]
    rw [resolveContextReferences, h1]
    rw [show applyDynamicFks args ctx args
        = objDelete (deps.foldl (applyFkDep ctx) args) "_dynamicForeignKeys" by
      simp [applyDynamicFks, hdfk]]
    simp [applyLegacyAuthorId, hleg]
  refine ⟨?_, ?_, ?_, ?_, ?_⟩
  · rw [hres]
    exact objGet_objDelete_self _ _
  · intro k v hk hv
    rw [hres, objGet_objDelete_ne _ _ _ (Ne.symm hk)]
    exact objGet_foldl_fkdeps ctx deps args k v hk hv
  · intro dep t m first rest idv htgt hmark hctx hid v
    unfold depSubst
    simp [htgt, hmark, hid, hctx, optToString, jsToString]
  · intro dep t htgt hor
    constructor
    · unfold fkSkipped
      rcases hor with hctx | hctx <;> simp [htgt, optToString, jsToString, hctx]
    · intro v
      unfold depSubst
      rcases hor with hctx | hctx <;> simp [htgt, optToString, jsToString, hctx]
  · intro hall
    rw [hres, foldl_fkdeps_skip ctx deps args hall]

/-- Witness for `C3_amended`: a two-dependency payload (`authorId` against
users, `categoryId` against categories) resolved against a store holding one
cached user and no cached categories: the flag is deleted, the users marker
is substituted, and the categories marker survives (its dependency is
skipped). -/
theorem C3_amended_witness :
    objGet (resolveContextReferences fkTwoDepArgs fkTwoDepCtx)
        "_dynamicForeignKeys" = none ∧
    objGet (resolveContextReferences fkTwoDepArgs fkTwoDepCtx) "authorId"
      = some (.vstr "user-1") ∧
    objGet (resolveContextReferences fkTwoDepArgs fkTwoDepCtx) "categoryId"
      = some (.vstr "\x7b\x7bDYNAMIC_CATEGORIES_ID\x7d\x7d") := by
  have h := C3_amended fkTwoDepArgs fkTwoDepCtx
    [.vobj [("sourceProperty", .vstr "authorId"),
            ("targetEndpoint", .vstr "users"),
            ("marker", .vstr "\x7b\x7bDYNAMIC_USERS_ID\x7d\x7d")],
     .vobj [("sourceProperty", .vstr "categoryId"),
            ("targetEndpoint", .vstr "categories"),
            ("marker", .vstr "\x7b\x7bDYNAMIC_CATEGORIES_ID\x7d\x7d")]]
    (by decide) (by decide) (by decide)
  refine ⟨h.1, ?_, ?_⟩
  · exact (h.2.1 "authorId" (.vstr "\x7b\x7bDYNAMIC_USERS_ID\x7d\x7d") (by decide) (by decide)).trans
      (by decide)
  · exact (h.2.1 "categoryId" (.vstr "\x7b\x7bDYNAMIC_CATEGORIES_ID\x7d\x7d") (by decide) (by decide)).trans
      (by decide)

/-! ### Claim C5 -/

/-- C5 (code evaluation at the failing input): `handleRunWorkflow` guards
continuation with `if (args.stopOnError) break`, a truthiness test on the
raw argument.  When `stopOnError` is *not supplied* (`none`), a failure in
the first step does **not** abort: the second step is still dispatched —
contradicting both the claim and the tool's own declared inputSchema default
(`stopOnError: {default: true}`).  When `stopOnError` is explicitly `true`,
the remaining steps are aborted as claimed; when explicitly `false`,
execution continues and the report keeps the failure message alongside the
later step's result. -/
theorem C5_stopOnError_eval :
    runWorkflowSteps failingStep1Dispatch none
        [⟨"step1", "first", none⟩, ⟨"step2", "second", none⟩]
      = (["step1", "step2"], ["Failed: boom", "Completed: done"]) ∧
    runWorkflowSteps failingStep1Dispatch (some (.vbool true))
        [⟨"step1", "first", none⟩, ⟨"step2", "second", none⟩]
      = (["step1"], ["Failed: boom"]) ∧
    runWorkflowSteps failingStep1Dispatch (some (.vbool false))
        [⟨"step1", "first", none⟩, ⟨"step2", "second", none⟩]
      = (["step1", "step2"], ["Failed: boom", "Completed: done"]) := by
  refine ⟨by decide, by decide, by decide⟩

/-! ### Claims C9 and C10 -/

/-- When an endpoint-tool call reaches the dispatcher and the dispatcher
succeeds, the resulting context store is exactly the `saveToContext` write
applied to the original store. -/
theorem handleEndpointTool_ok (apiBaseUrl : String) (endpointNames : List String)
    (tool : EndpointToolInfo) (args ctx : List (String × JsVal)) (r : HttpResponse)
    (hok : (handleEndpointTool apiBaseUrl endpointNames tool args ctx (.ok r)).error
      = none) :
    handleEndpointTool apiBaseUrl endpointNames tool args ctx (.ok r)
      = { dispatched := true, ctx := saveToContextStep args ctx r.rdata,
          error := none } := by
  simp only [handleEndpointTool] at hok ⊢
  by_cases h1 : (!endpointNames.contains tool.endpoint) = true
  · rw [if_pos h1] at hok
    simp at hok
  · rw [if_neg h1] at hok ⊢
    by_cases h2 : (sContainsChar tool.opPath '\x7b'
        && !optTruthy (objGet (resolveContextReferences args ctx) "id")) = true
    · rw [if_pos h2] at hok
      simp at hok
    · rw [if_neg h2] at hok ⊢
      by_cases h3 : (httpMethodOf tool.method = "POST"
          && (preparedData tool (resolveContextReferences args ctx)).isEmpty) = true
      · rw [if_pos h3] at hok
        simp at hok
      · rw [if_neg h3]

/-- C9 (counterexample): a successfully dispatched call that declares
`saveToContext: "k"` but whose response payload is falsy (`null`) does not
write the payload: the code requires `response.data` to be truthy, so the
prior value at `k` survives. -/
theorem C9_counterexample :
    (handleEndpointTool "http://localhost:3000/api" ["users"]
        ⟨"users", "GET_COLLECTION", "/users"⟩
        [("saveToContext", .vstr "k")] [("k", .vstr "old")]
        (.ok ⟨204, some .vnull⟩))
      = { dispatched := true, ctx := [("k", .vstr "old")], error := none } ∧
    ¬ objGet (handleEndpointTool "http://localhost:3000/api" ["users"]
        ⟨"users", "GET_COLLECTION", "/users"⟩
        [("saveToContext", .vstr "k")] [("k", .vstr "old")]
        (.ok ⟨204, some .vnull⟩)).ctx "k" = some .vnull := by
  constructor <;> decide

/-- C9 (amended): for a successfully dispatched endpoint-tool call, if the
original arguments declare `saveToContext` with (string, non-empty) key `k`
and the response payload is present and *truthy*, the store afterwards maps
`k` to the payload and every other key keeps its prior value; if the payload
is falsy or absent, or no `saveToContext` is declared, the store is entirely
unchanged. -/
theorem C9_amended (apiBaseUrl : String) (endpointNames : List String)
    (tool : EndpointToolInfo) (args ctx : List (String × JsVal)) (r : HttpResponse)
    (hok : (handleEndpointTool apiBaseUrl endpointNames tool args ctx (.ok r)).error
      = none) :
    (∀ key d, objGet args "saveToContext" = some (.vstr key) →
        jsTruthy (.vstr key) = true → r.rdata = some d → jsTruthy d = true →
        objGet (handleEndpointTool apiBaseUrl endpointNames tool args ctx
            (.ok r)).ctx key = some d ∧
        ∀ k', k' ≠ key →
          objGet (handleEndpointTool apiBaseUrl endpointNames tool args ctx
              (.ok r)).ctx k' = objGet ctx k')
    ∧ ((∀ d, r.rdata = some d → jsTruthy d = false) →
        (handleEndpointTool apiBaseUrl endpointNames tool args ctx (.ok r)).ctx = ctx)
    ∧ (objGet args "saveToContext" = none →
        (handleEndpointTool apiBaseUrl endpointNames tool args ctx (.ok r)).ctx = ctx) := by
  rw [handleEndpointTool_ok apiBaseUrl endpointNames tool args ctx r hok]
  refine ⟨?_, ?_, ?_⟩
  · intro key d hsv hkt hrd htr
    simp only [saveToContextStep, hsv, hrd, hkt, htr, Bool.and_self, if_true]
    exact ⟨objGet_objSet_self _ _ _, fun k' hk' =>
      objGet_objSet_ne _ _ _ _ (Ne.symm hk')⟩
  · intro hfalsy
    simp only [saveToContextStep]
    cases hsv : objGet args "saveToContext" with
    | none => rfl
    | some sv =>
        cases sv <;> try rfl
        rename_i key
        cases hrd : r.rdata with
        | none => rfl
        | some d =>
            have hf := hfalsy d hrd
            simp [hf]
  · intro hsv
    simp [saveToContextStep, hsv]

/-- Witness for `C9_amended`: a list call saving a one-user array under
`existing_users`, with an unrelated key `other` left untouched. -/
theorem C9_amended_witness :
    objGet (handleEndpointTool "http://localhost:3000/api" ["users"]
        ⟨"users", "GET_COLLECTION", "/users"⟩
        [("saveToContext", .vstr "existing_users")] [("other", .vstr "x")]
        (.ok ⟨200, some (.varr [.vobj [("id", .vstr "u1")]])⟩)).ctx "existing_users"
      = some (.varr [.vobj [("id", .vstr "u1")]]) ∧
    objGet (handleEndpointTool "http://localhost:3000/api" ["users"]
        ⟨"users", "GET_COLLECTION", "/users"⟩
        [("saveToContext", .vstr "existing_users")] [("other", .vstr "x")]
        (.ok ⟨200, some (.varr [.vobj [("id", .vstr "u1")]])⟩)).ctx "other"
      = objGet [("other", .vstr "x")] "other" := by
  have h := (C9_amended "http://localhost:3000/api" ["users"]
    ⟨"users", "GET_COLLECTION", "/users"⟩
    [("saveToContext", .vstr "existing_users")] [("other", .vstr "x")]
    ⟨200, some (.varr [.vobj [("id", .vstr "u1")]])⟩ (by decide)).1
    "existing_users" (.varr [.vobj [("id", .vstr "u1")]])
    (by decide) (by decide) (by decide) (by decide)
  exact ⟨h.1, h.2 "other" (by decide)⟩

/-- C10 (confirmed): for an endpoint tool whose operation path template
contains a path parameter, if after context resolution no `id` is available,
the call fails with a descriptive error before any request reaches the HTTP
dispatcher, and the context store is unchanged. -/
theorem C10_missing_id (apiBaseUrl : String) (endpointNames : List String)
    (tool : EndpointToolInfo) (args ctx : List (String × JsVal))
    (resp : Except String HttpResponse)
    (hfound : endpointNames.contains tool.endpoint = true)
    (hbrace : sContainsChar tool.opPath '\x7b' = true)
    (hid : objGet (resolveContextReferences args ctx) "id" = none) :
    handleEndpointTool apiBaseUrl endpointNames tool args ctx resp
      = { dispatched := false, ctx := ctx,
          error := some ("ID parameter is required for " ++ tool.method
            ++ " operation on " ++ tool.opPath) } := by
  simp only [handleEndpointTool]
  rw [if_neg (by rw [hfound]; decide), if_pos (by simp [hbrace, hid, optTruthy])]

/-- Witness for `C10_missing_id`: a `GET /users/\x7bid\x7d` call with empty
arguments and an empty store. -/
theorem C10_missing_id_witness :
    handleEndpointTool "http://localhost:3000/api" ["users"]
        ⟨"users", "GET", "/users/\x7bid\x7d"⟩ [] [] (.ok ⟨200, none⟩)
      = { dispatched := false, ctx := [],
          error := some ("ID parameter is required for " ++ "GET"
            ++ " operation on " ++ "/users/\x7bid\x7d") } :=
  C10_missing_id "http://localhost:3000/api" ["users"]
    ⟨"users", "GET", "/users/\x7bid\x7d"⟩ [] [] (.ok ⟨200, none⟩)
    (by decide) (by decide) (by decide)


/-! ### Claim C6 : dynamic markers for uuid foreign keys -/

/-- For a string/uuid property schema with no example and no enum, sample
value synthesis reduces to the foreign-key decision: a marker on successful
detection, the literal placeholder otherwise — provided the property name
does not trip the earlier email heuristic. -/
theorem gsvp_uuid_reduce (E : List String) (o : List (String × JsVal))
    (name ep : String) (fuel : Nat)
    (hex : objGet o "example" = none) (hen : objGet o "enum" = none)
    (hty : objGet o "type" = some (.vstr "string"))
    (hfmt : objGet o "format" = some (.vstr "uuid"))
    (hmail : sIncludes (sLower name) "email" = false) :
    generateSampleValueForProp E (fuel + 2) name (.vobj o) ep
      = some (match detectForeignKeyRelationship E name (.vobj o) ep with
              | some fk => .vstr (dynamicMarker fk.targetEndpoint)
              | none => .vstr "123e4567-e89b-12d3-a456-426614174000") := by
  simp only [generateSampleValueForProp, jsGet, hex, hen]
  simp only [generateSampleForType, jsGet, hty]
  rw [if_pos trivial, generateSampleString]
  simp only [jsGet, hfmt, hmail]
  simp

/-- `authorId`, `userId` and `ownerId` all detect against target endpoint
`users`, succeeding exactly when `users` is registered. -/
theorem detect_users_name (E : List String) (o : List (String × JsVal))
    (ep name : String)
    (hfmt : objGet o "format" = some (.vstr "uuid"))
    (h : name = "authorId" ∨ name = "userId" ∨ name = "ownerId") :
    ∃ r, detectForeignKeyRelationship E name (.vobj o) ep
      = if E.contains "users" then some ⟨name, "users", r⟩ else none := by
  rcases h with h | h | h <;> subst h
  · refine ⟨sLower "author", ?_⟩
    simp only [detectForeignKeyRelationship, jsGet, hfmt, if_pos rfl]
    rw [show matchFkPattern1 "authorId" = some "author" from by decide,
        show matchFkPattern2 "authorId" = none from by decide,
        show matchFkPattern3 "authorId" = none from by decide]
    simp only [tryFkCapture]
    rw [show (resourceMappings (sLower "author")).getD (pluralize (sLower "author"))
          = "users" from by decide]
    cases hus : E.contains "users" <;> simp
  · refine ⟨sLower "user", ?_⟩
    simp only [detectForeignKeyRelationship, jsGet, hfmt, if_pos rfl]
    rw [show matchFkPattern1 "userId" = some "user" from by decide,
        show matchFkPattern2 "userId" = none from by decide,
        show matchFkPattern3 "userId" = none from by decide]
    simp only [tryFkCapture]
    rw [show (resourceMappings (sLower "user")).getD (pluralize (sLower "user"))
          = "users" from by decide]
    cases hus : E.contains "users" <;> simp
  · refine ⟨sLower "owner", ?_⟩
    simp only [detectForeignKeyRelationship, jsGet, hfmt, if_pos rfl]
    rw [show matchFkPattern1 "ownerId" = some "owner" from by decide,
        show matchFkPattern2 "ownerId" = none from by decide,
        show matchFkPattern3 "ownerId" = none from by decide]
    simp only [tryFkCapture]
    rw [show (resourceMappings (sLower "owner")).getD (pluralize (sLower "owner"))
          = "users" from by decide]
    cases hus : E.contains "users" <;> simp

/-- Counterexample to claim C6's second half: `emailId` is a uuid-formatted
property (no example, no enum) whose computed target endpoint `emails` is not
registered — detection fails — yet the synthesized value is the email sample
string, not the literal placeholder UUID, because the email name heuristic
runs before the uuid branch. -/
theorem C6_counterexample :
    jsGet uuidPropSchema "example" = none
    ∧ jsGet uuidPropSchema "enum" = none
    ∧ jsGet uuidPropSchema "format" = some (.vstr "uuid")
    ∧ detectForeignKeyRelationship [] "emailId" uuidPropSchema "posts" = none
    ∧ generateSampleValueForProp [] 5 "emailId" uuidPropSchema "posts"
        = some (.vstr "workflow.test@example.com")
    ∧ (JsVal.vstr "workflow.test@example.com"
        ≠ .vstr "123e4567-e89b-12d3-a456-426614174000") := by
  refine ⟨rfl, rfl, rfl, by decide, by decide, by decide⟩

/-- Claim C6 (amended): for a string/uuid property schema with no example
and no enum, (1) the names `authorId`, `userId`, `ownerId` synthesize the
`users` dynamic marker when a `users` endpoint is registered and the literal
placeholder UUID otherwise; (2) whenever foreign-key detection fails — and
the property name does not trip the earlier email heuristic — the literal
placeholder UUID is produced and no marker is emitted. -/
theorem C6_amended (E : List String) (o : List (String × JsVal)) (ep : String)
    (fuel : Nat)
    (hex : objGet o "example" = none) (hen : objGet o "enum" = none)
    (hty : objGet o "type" = some (.vstr "string"))
    (hfmt : objGet o "format" = some (.vstr "uuid")) :
    (∀ name, name = "authorId" ∨ name = "userId" ∨ name = "ownerId" →
        generateSampleValueForProp E (fuel + 2) name (.vobj o) ep
          = some (if E.contains "users" then .vstr (dynamicMarker "users")
                  else .vstr "123e4567-e89b-12d3-a456-426614174000"))
    ∧ (∀ name, sIncludes (sLower name) "email" = false →
        detectForeignKeyRelationship E name (.vobj o) ep = none →
        generateSampleValueForProp E (fuel + 2) name (.vobj o) ep
          = some (.vstr "123e4567-e89b-12d3-a456-426614174000")) := by
  constructor
  · intro name h
    have hmail : sIncludes (sLower name) "email" = false := by
      rcases h with h | h | h <;> subst h <;> decide
    rw [gsvp_uuid_reduce E o name ep fuel hex hen hty hfmt hmail]
    obtain ⟨r, hdet⟩ := detect_users_name E o ep name hfmt h
    rw [hdet]
    cases hus : E.contains "users" <;> simp [hus]
  · intro name hmail hdet
    rw [gsvp_uuid_reduce E o name ep fuel hex hen hty hfmt hmail, hdet]

/-- Witness for C6: on the concrete uuid schema, `authorId` yields the users
marker when `users` is registered, and `ownerId` yields the literal
placeholder when it is not. -/
theorem C6_amended_witness :
    generateSampleValueForProp ["users", "posts"] 5 "authorId"
        uuidPropSchema "posts"
      = some (.vstr (dynamicMarker "users"))
    ∧ generateSampleValueForProp ["posts"] 5 "ownerId"
        uuidPropSchema "posts"
      = some (.vstr "123e4567-e89b-12d3-a456-426614174000") := by
  constructor
  · have h := (C6_amended ["users", "posts"]
      [("type", .vstr "string"), ("format", .vstr "uuid")] "posts" 3
      rfl rfl rfl rfl).1 "authorId" (Or.inl rfl)
    exact h.trans (by decide)
  · exact (C6_amended ["posts"]
      [("type", .vstr "string"), ("format", .vstr "uuid")] "posts" 3
      rfl rfl rfl rfl).2 "ownerId" (by decide) (by decide)


/-! ### Claim C1 : CRUD workflow synthesis iff all four operations present -/

/-- `Map.get` after `Map.set` at the written key. -/
theorem wfGet_wfSet_self (m : List (String × Workflow)) (k : String) (v : Workflow) :
    wfGet (wfSet m k v) k = some v := by
  induction m with
  | nil => simp [wfSet, wfGet]
  | cons hd rest ih =>
      obtain ⟨k0, v0⟩ := hd
      by_cases h : k0 = k
      · simp [wfSet, wfGet, h]
      · simp [wfSet, wfGet, h, ih]

/-- `Map.get` after `Map.set` at a different key. -/
theorem wfGet_wfSet_ne (m : List (String × Workflow)) (k k' : String) (v : Workflow)
    (h : k ≠ k') : wfGet (wfSet m k v) k' = wfGet m k' := by
  induction m with
  | nil => simp [wfSet, wfGet, h]
  | cons hd rest ih =>
      obtain ⟨k0, v0⟩ := hd
      by_cases h0 : k0 = k
      · subst h0; simp [wfSet, wfGet, h]
      · simp [wfSet, wfGet, h0, ih]

/-- Appending a fixed suffix is injective. -/
theorem strAppend_right_cancel {a b s : String} (h : a ++ s = b ++ s) : a = b := by
  have hd : a.data ++ s.data = b.data ++ s.data := by
    have h2 := congrArg String.data h
    simpa using h2
  have hab : a.data = b.data := by
    exact List.append_cancel_right hd
  cases a; cases b
  exact congrArg String.mk hab

/-- Keys whose endpoint is not in the remaining registry are untouched by the
synthesis fold. -/
theorem generateWorkflowsGo_frame (E : List String) (spec : JsVal) (fuel : Nat) :
    ∀ (es : List (String × Endpoint)) (acc ws : List (String × Workflow)) (key : String),
      generateWorkflowsGo E spec fuel es acc = some ws →
      (∀ p ∈ es, p.1 ++ "_crud_workflow" ≠ key) →
      wfGet ws key = wfGet acc key := by
  intro es
  induction es with
  | nil =>
      intro acc ws key h hk
      simp only [generateWorkflowsGo] at h
      cases h; rfl
  | cons hd rest ih =>
      intro acc ws key h hk
      obtain ⟨n0, e0⟩ := hd
      simp only [generateWorkflowsGo] at h
      by_cases he : crudEligible e0 = true
      · rw [if_pos he] at h
        cases hb : buildCrudWorkflow E spec fuel n0 e0 with
        | none => rw [hb] at h; cases h
        | some wf =>
            rw [hb] at h
            have hrest := ih _ _ _ h (fun p hp => hk p (List.mem_cons_of_mem _ hp))
            rw [hrest, wfGet_wfSet_ne]
            exact hk (n0, e0) (List.mem_cons_self _ _)
      · rw [if_neg he] at h
        exact ih _ _ _ h (fun p hp => hk p (List.mem_cons_of_mem _ hp))

/-- What the synthesis fold stores for each registry entry: eligible
endpoints get their built workflow (which the fold guarantees exists),
ineligible ones leave the accumulator alone. -/
theorem generateWorkflowsGo_lookup (E : List String) (spec : JsVal) (fuel : Nat) :
    ∀ (es : List (String × Endpoint)) (acc ws : List (String × Workflow)),
      generateWorkflowsGo E spec fuel es acc = some ws →
      (es.map Prod.fst).Nodup →
      ∀ n e, (n, e) ∈ es →
        wfGet ws (n ++ "_crud_workflow")
          = (if crudEligible e = true then buildCrudWorkflow E spec fuel n e
             else wfGet acc (n ++ "_crud_workflow"))
        ∧ (crudEligible e = true → (buildCrudWorkflow E spec fuel n e).isSome = true) := by
  intro es
  induction es with
  | nil => intro acc ws h hnd n e hmem; cases hmem
  | cons hd rest ih =>
      intro acc ws h hnd n e hmem
      obtain ⟨n0, e0⟩ := hd
      rw [List.map_cons] at hnd
      have hnotin : n0 ∉ rest.map Prod.fst := (List.nodup_cons.mp hnd).1
      have hndrest : (rest.map Prod.fst).Nodup := (List.nodup_cons.mp hnd).2
      simp only [generateWorkflowsGo] at h
      rcases List.mem_cons.mp hmem with heq | hmem'
      · injection heq with hn he
        subst hn; subst he
        by_cases helig : crudEligible e = true
        · rw [if_pos helig] at h
          cases hb : buildCrudWorkflow E spec fuel n e with
          | none => rw [hb] at h; cases h
          | some wf =>
              rw [hb] at h
              have hframe := generateWorkflowsGo_frame E spec fuel rest _ _
                  (n ++ "_crud_workflow") h ?_
              · refine ⟨?_, fun _ => by simp [hb]⟩
                rw [hframe, wfGet_wfSet_self, if_pos helig]
              · intro p hp hkey
                exact absurd ((strAppend_right_cancel hkey) ▸ List.mem_map_of_mem Prod.fst hp)
                  hnotin
        · rw [if_neg helig] at h
          have hframe := generateWorkflowsGo_frame E spec fuel rest _ _
              (n ++ "_crud_workflow") h ?_
          · refine ⟨?_, fun hc => absurd hc helig⟩
            rw [hframe, if_neg helig]
          · intro p hp hkey
            exact absurd ((strAppend_right_cancel hkey) ▸ List.mem_map_of_mem Prod.fst hp)
              hnotin
      · have hn : n ≠ n0 := by
          intro hcontra
          subst hcontra
          exact hnotin (List.mem_map_of_mem Prod.fst hmem')
        by_cases helig0 : crudEligible e0 = true
        · rw [if_pos helig0] at h
          cases hb : buildCrudWorkflow E spec fuel n0 e0 with
          | none => rw [hb] at h; cases h
          | some wf =>
              rw [hb] at h
              have hih := ih _ _ h hndrest n e hmem'
              refine ⟨?_, hih.2⟩
              rw [hih.1]
              by_cases helig : crudEligible e = true
              · rw [if_pos helig, if_pos helig]
              · rw [if_neg helig, if_neg helig, wfGet_wfSet_ne]
                intro hkey
                exact hn (strAppend_right_cancel hkey).symm
        · rw [if_neg helig0] at h
          exact ih _ _ h hndrest n e hmem'

/-- Claim C1: over a duplicate-free registry, a `<name>_crud_workflow` entry
is synthesized for an endpoint if and only if its operations map has all four
of `GET_COLLECTION`, `GET`, `POST` and `DELETE`. -/
theorem C1_crud_workflow_iff (spec : JsVal) (fuel : Nat)
    (endpoints : List (String × Endpoint)) (ws : List (String × Workflow))
    (hnodup : (endpoints.map Prod.fst).Nodup)
    (hgen : generateWorkflows spec fuel endpoints = some ws)
    (n : String) (e : Endpoint) (hmem : (n, e) ∈ endpoints) :
    (wfGet ws (n ++ "_crud_workflow")).isSome = true ↔ crudEligible e = true := by
  have hlook := generateWorkflowsGo_lookup (endpoints.map Prod.fst) spec fuel endpoints
    [] ws hgen hnodup n e hmem
  by_cases helig : crudEligible e = true
  · rw [if_pos helig] at hlook
    constructor
    · intro _; exact helig
    · intro _
      rw [hlook.1]
      exact hlook.2 helig
  · rw [if_neg helig] at hlook
    constructor
    · intro hsome
      rw [hlook.1] at hsome
      simp [wfGet] at hsome
    · intro hc; exact absurd hc helig

/-- Witness for C1 on a concrete registry: `items` (all four operations) gets
a workflow, `logs` (create, list, delete, but no item `GET`) does not. -/
theorem C1_crud_workflow_iff_witness :
    ((wfGet [("items_crud_workflow", itemsWorkflow)] ("items" ++ "_crud_workflow")).isSome
        = true ↔ crudEligible itemsEndpoint = true)
    ∧ ((wfGet [("items_crud_workflow", itemsWorkflow)] ("logs" ++ "_crud_workflow")).isSome
        = true ↔ crudEligible logsEndpoint = true) :=
  ⟨C1_crud_workflow_iff (.vobj []) 50 [("items", itemsEndpoint), ("logs", logsEndpoint)]
      [("items_crud_workflow", itemsWorkflow)] (by decide) (by decide)
      "items" itemsEndpoint (by decide),
   C1_crud_workflow_iff (.vobj []) 50 [("items", itemsEndpoint), ("logs", logsEndpoint)]
      [("items_crud_workflow", itemsWorkflow)] (by decide) (by decide)
      "logs" logsEndpoint (by decide)⟩

/-! ### Claim C2 : step-list structure of synthesized workflows -/

/-- Prepending a fixed prefix is injective. -/
theorem strAppend_left_cancel {s a b : String} (h : s ++ a = s ++ b) : a = b := by
  have hd : s.data ++ a.data = s.data ++ b.data := by
    have h2 := congrArg String.data h
    simpa using h2
  have hab : a.data = b.data := List.append_cancel_left hd
  cases a; cases b
  exact congrArg String.mk hab

/-- Membership of a prefixed string in a list of prefixed strings. -/
theorem contains_map_prefix (seen : List String) (pre t : String) :
    (seen.map (fun x => pre ++ x)).contains (pre ++ t) = seen.contains t := by
  induction seen with
  | nil => rfl
  | cons hd rest ih =>
      simp only [List.map_cons, List.contains_cons, ih]
      congr 1
      by_cases ht : pre ++ t = pre ++ hd
      · have : t = hd := strAppend_left_cancel ht
        simp [this]
      · have : t ≠ hd := fun hc => ht (by rw [hc])
        simp [ht, this]

/-- Dependency-fetch step synthesis agrees with first-seen deduplication of
target endpoints (the `addedContextKeys` set holds `existing_`-prefixed
copies of the seen targets). -/
theorem depSteps_sig : ∀ (deps : List JsVal) (seen : List String),
    (buildDepSteps deps (seen.map (fun t => "existing_" ++ t))).map stepSig
      = (firstSeenTargets deps seen).map
          (fun t => ("list_" ++ t,
            some [("saveToContext", JsVal.vstr ("existing_" ++ t))])) := by
  intro deps
  induction deps with
  | nil => intro seen; rfl
  | cons dep rest ih =>
      intro seen
      simp only [buildDepSteps, firstSeenTargets, contains_map_prefix]
      by_cases hc : seen.contains (optToString (jsGet dep "targetEndpoint")) = true
      · rw [if_pos hc, if_pos hc]
        exact ih seen
      · rw [if_neg hc, if_neg hc]
        simp only [List.map_cons, stepSig]
        refine congrArg₂ _ rfl ?_
        have := ih (optToString (jsGet dep "targetEndpoint") :: seen)
        simpa using this

/-- Drop/take bookkeeping: if position `i` of `l` starts `x :: rest`, then
`take (i+1)` extends `take i` by `x` and `drop (i+1)` is `rest`. -/
theorem drop_cons_take {α : Type} : ∀ (l : List α) (i : Nat) (x : α) (rest : List α),
    l.drop i = x :: rest →
    l.take (i + 1) = l.take i ++ [x] ∧ l.drop (i + 1) = rest := by
  intro l
  induction l with
  | nil => intro i x rest h; rw [List.drop_nil] at h; cases h
  | cons y tl ih =>
      intro i x rest h
      cases i with
      | zero =>
          simp only [List.drop] at h
          cases h
          exact ⟨rfl, rfl⟩
      | succ i' =>
          have h' : tl.drop i' = x :: rest := h
          obtain ⟨h1, h2⟩ := ih i' x rest h'
          constructor
          · show y :: tl.take (i' + 1) = (y :: tl.take i') ++ [x]
            rw [h1]; rfl
          · exact h2

/-- `contains` distributes over append. -/
theorem contains_append {α : Type} [BEq α] (l₁ l₂ : List α) (a : α) :
    (l₁ ++ l₂).contains a = (l₁.contains a || l₂.contains a) := by
  induction l₁ with
  | nil => simp
  | cons hd tl ih => simp [List.contains_cons, ih, Bool.or_assoc]

/-- `findIdx` hits position `i` exactly when the marker of the element at
`i` does not occur among the markers of the first `i` elements. -/
theorem findIdx_marker_iff : ∀ (full : List JsVal) (i : Nat) (x : JsVal)
    (rest : List JsVal), full.drop i = x :: rest →
    ((full.findIdx (fun d => jsGet d "marker" == jsGet x "marker") = i)
      ↔ ((full.take i).map (fun d => jsGet d "marker")).contains
          (jsGet x "marker") = false) := by
  intro full
  induction full with
  | nil => intro i x rest h; rw [List.drop_nil] at h; cases h
  | cons y tl ih =>
      intro i x rest h
      cases i with
      | zero =>
          simp only [List.drop] at h
          cases h
          simp [List.findIdx_cons]
      | succ i' =>
          have h' : tl.drop i' = x :: rest := h
          rw [List.findIdx_cons]
          by_cases hy : (jsGet y "marker" == jsGet x "marker") = true
          · have hxy : jsGet y "marker" = jsGet x "marker" := eq_of_beq hy
            constructor
            · intro hidx
              rw [hy] at hidx
              simp at hidx
            · intro hcontains
              exfalso
              simp only [List.take, List.map_cons, List.contains_cons] at hcontains
              rw [← hxy] at hcontains
              simp at hcontains
          · rw [Bool.not_eq_true] at hy
            have hxy : (jsGet x "marker" == jsGet y "marker") = false := by
              cases hb : (jsGet x "marker" == jsGet y "marker") with
              | false => rfl
              | true =>
                  have heq := eq_of_beq hb
                  rw [← heq] at hy
                  simp at hy
            rw [hy]
            simp only [cond_false]
            have hih := ih i' x rest h'
            constructor
            · intro hidx
              have hfi : tl.findIdx (fun d => jsGet d "marker" == jsGet x "marker")
                  = i' := by omega
              simp only [List.take, List.map_cons, List.contains_cons, hxy,
                Bool.false_or]
              exact hih.mp hfi
            · intro hcontains
              simp only [List.take, List.map_cons, List.contains_cons] at hcontains
              have h2 : ((tl.take i').map (fun d => jsGet d "marker")).contains
                  (jsGet x "marker") = false := by
                cases hc : ((tl.take i').map (fun d => jsGet d "marker")).contains
                    (jsGet x "marker") with
                | false => rfl
                | true => rw [hc] at hcontains; simp at hcontains
              rw [hih.mpr h2]

/-- The enum/findIndex filter of `uniqueByMarker`, recast recursively. -/
theorem enum_filter_aux (full : List JsVal) : ∀ (l : List JsVal) (n : Nat),
    ((l.enumFrom n).filter fun p =>
        full.findIdx (fun d => jsGet d "marker" == jsGet p.2 "marker") = p.1).map Prod.snd
      = ubmAux full n l := by
  intro l
  induction l with
  | nil => intro n; rfl
  | cons x rest ih =>
      intro n
      show (((n, x) :: rest.enumFrom (n + 1)).filter _).map Prod.snd = _
      rw [List.filter_cons]
      by_cases h : full.findIdx (fun d => jsGet d "marker" == jsGet x "marker") = n
      · simp only [ubmAux, h, if_pos]
        simp [ih, h]
      · simp only [ubmAux, h, if_neg]
        simp [ih, h]

/-- `uniqueByMarker` keeps exactly the first occurrence of each marker. -/
theorem ubm_eq_fsbm (deps : List JsVal) :
    uniqueByMarker deps = firstSeenByMarker deps [] := by
  have haux : uniqueByMarker deps = ubmAux deps 0 deps := by
    have := enum_filter_aux deps deps 0
    simpa [uniqueByMarker, List.enum] using this
  rw [haux]
  suffices h : ∀ (l : List JsVal) (i : Nat) (seen : List (Option JsVal)),
      deps.drop i = l →
      (∀ m : Option JsVal, seen.contains m
        = ((deps.take i).map (fun d => jsGet d "marker")).contains m) →
      ubmAux deps i l = firstSeenByMarker l seen by
    exact h deps 0 [] rfl (fun m => rfl)
  intro l
  induction l with
  | nil => intro i seen hdrop hseen; rfl
  | cons x rest ih =>
      intro i seen hdrop hseen
      obtain ⟨htake, hdrop'⟩ := drop_cons_take deps i x rest hdrop
      have hcond := findIdx_marker_iff deps i x rest hdrop
      simp only [ubmAux, firstSeenByMarker]
      by_cases hidx : deps.findIdx (fun d => jsGet d "marker" == jsGet x "marker") = i
      · have hnotseen : seen.contains (jsGet x "marker") = false := by
          rw [hseen]; exact hcond.mp hidx
        rw [if_pos hidx, if_neg (by rw [hnotseen]; exact Bool.false_ne_true)]
        refine congrArg _ ?_
        refine ih (i + 1) (jsGet x "marker" :: seen) hdrop' ?_
        intro m
        rw [htake, List.map_append, contains_append]
        simp only [List.map_cons, List.map_nil, List.contains_cons,
          List.contains_nil, Bool.or_false, hseen m]
        exact Bool.or_comm _ _
      · have hseenx : seen.contains (jsGet x "marker") = true := by
          rw [hseen]
          cases hc : ((deps.take i).map (fun d => jsGet d "marker")).contains
              (jsGet x "marker") with
          | true => rfl
          | false => exact absurd (hcond.mpr hc) hidx
        rw [if_neg hidx, if_pos hseenx]
        refine ih (i + 1) seen hdrop' ?_
        intro m
        rw [htake, List.map_append, contains_append]
        by_cases hm : m = jsGet x "marker"
        · subst hm
          have hA : ((deps.take i).map (fun d => jsGet d "marker")).contains
              (jsGet x "marker") = true := by
            rw [← hseen]; exact hseenx
          simp only [List.map_cons, List.map_nil, List.contains_cons,
            List.contains_nil, Bool.or_false]
          rw [hseenx, hA]
          simp
        · have hb : (m == jsGet x "marker") = false := by simp [hm]
          simp only [List.map_cons, List.map_nil, List.contains_cons,
            List.contains_nil, Bool.or_false, hb]
          exact hseen m

/-- `objSet` never shrinks an object. -/
theorem objSet_length_ge (b : List (String × JsVal)) (k : String) (v : JsVal) :
    b.length ≤ (objSet b k v).length := by
  induction b with
  | nil => simp [objSet]
  | cons hd rest ih =>
      obtain ⟨k0, v0⟩ := hd
      by_cases h : k0 = k
      · simp [objSet, h]
      · simp only [objSet, if_neg h, List.length_cons]
        omega

/-- `objAssign` never shrinks its base object. -/
theorem objAssign_length_ge : ∀ (e b : List (String × JsVal)),
    b.length ≤ (objAssign b e).length := by
  intro e
  induction e with
  | nil => intro b; simp [objAssign]
  | cons hd rest ih =>
      intro b
      show b.length ≤ (objAssign (objSet b hd.1 hd.2) rest).length
      calc b.length ≤ (objSet b hd.1 hd.2).length := objSet_length_ge b hd.1 hd.2
        _ ≤ _ := ih (objSet b hd.1 hd.2)

/-- The keys of `objSet`: unchanged on overwrite, extended on append. -/
theorem objSet_fst (b : List (String × JsVal)) (k : String) (v : JsVal) :
    (objSet b k v).map Prod.fst
      = if (objGet b k).isSome then b.map Prod.fst else b.map Prod.fst ++ [k] := by
  induction b with
  | nil => simp [objSet, objGet]
  | cons hd rest ih =>
      obtain ⟨k0, v0⟩ := hd
      by_cases h : k0 = k
      · simp [objSet, objGet, h]
      · simp only [objSet, objGet, if_neg h, List.map_cons, ih]
        by_cases hg : (objGet rest k).isSome
        · simp [hg]
        · simp [hg]

/-- The keys of the base object survive `objAssign` as a prefix. -/
theorem objAssign_fst_prefix : ∀ (e b : List (String × JsVal)),
    ∃ extra, (objAssign b e).map Prod.fst = b.map Prod.fst ++ extra := by
  intro e
  induction e with
  | nil => intro b; exact ⟨[], by simp [objAssign]⟩
  | cons hd rest ih =>
      intro b
      obtain ⟨extra, hex⟩ := ih (objSet b hd.1 hd.2)
      have hstep : (objAssign b (hd :: rest)).map Prod.fst
          = (objAssign (objSet b hd.1 hd.2) rest).map Prod.fst := rfl
      rw [hstep, hex, objSet_fst]
      by_cases hg : (objGet b hd.1).isSome
      · exact ⟨extra, by rw [if_pos hg]⟩
      · exact ⟨[hd.1] ++ extra, by rw [if_neg hg, List.append_assoc]⟩

/-- An object with a non-`data` key has a non-`data` entry. -/
theorem any_ne_data_of_mem_fst (r : List (String × JsVal)) (k : String)
    (hk : k ∈ r.map Prod.fst) (hne : k ≠ "data") :
    (r.any fun p => p.1 ≠ "data") = true := by
  obtain ⟨p, hp, hfst⟩ := List.mem_map.mp hk
  exact List.any_eq_true.mpr ⟨p, hp, by simp [hfst, hne]⟩

/-- For payloads of the shape the generator produces — a single `data` key
merged with the flattened fields — having more than one entry is the same as
having an entry besides `data`. -/
theorem objAssign_data_len_iff : ∀ (s b : List (String × JsVal)),
    b.map Prod.fst = ["data"] →
    ((objAssign b s).length > 1
      ↔ ((objAssign b s).any fun p => p.1 ≠ "data") = true) := by
  intro s
  induction s with
  | nil =>
      intro b hb
      have hlen : b.length = 1 := by
        have := congrArg List.length hb
        simpa using this
      show b.length > 1 ↔ (b.any fun p => p.1 ≠ "data") = true
      rw [hlen]
      constructor
      · intro h; omega
      · intro h
        exfalso
        obtain ⟨p, hp, hne⟩ := List.any_eq_true.mp h
        have hpk : p.1 ∈ b.map Prod.fst := List.mem_map_of_mem Prod.fst hp
        rw [hb] at hpk
        simp at hpk
        simp [hpk] at hne
  | cons hd rest ih =>
      intro b hb
      obtain ⟨k, v⟩ := hd
      have hstep : objAssign b ((k, v) :: rest) = objAssign (objSet b k v) rest := rfl
      rw [hstep]
      by_cases hk : k = "data"
      · subst hk
        refine ih (objSet b "data" v) ?_
        have hg : (objGet b "data").isSome = true := by
          cases b with
          | nil => simp at hb
          | cons hd0 tl =>
              obtain ⟨k0, v0⟩ := hd0
              simp only [List.map_cons] at hb
              have hk0 : k0 = "data" := by
                have := congrArg (fun l => l.headD "") hb
                simpa using this
              simp [objGet, hk0]
        rw [objSet_fst, if_pos hg, hb]
      · constructor
        · intro _
          obtain ⟨extra, hex⟩ := objAssign_fst_prefix rest (objSet b k v)
          refine any_ne_data_of_mem_fst _ k ?_ hk
          rw [hex, objSet_fst]
          by_cases hg : (objGet b k).isSome
          · exfalso
            obtain ⟨w, hgw⟩ := Option.isSome_iff_exists.mp hg
            have hkmem : k ∈ b.map Prod.fst := objGet_key_mem hgw
            rw [hb] at hkmem
            simp at hkmem
            exact hk hkmem
          · rw [if_neg hg]
            simp
        · intro _
          have hlen2 : (objSet b k v).length = 2 := by
            have hfst := objSet_fst b k v
            have hg : (objGet b k).isSome = false := by
              cases hgc : (objGet b k) with
              | none => rfl
              | some w =>
                  exfalso
                  have hkmem : k ∈ b.map Prod.fst := objGet_key_mem hgc
                  rw [hb] at hkmem
                  simp at hkmem
                  exact hk hkmem
            rw [hg] at hfst
            simp only [Bool.false_eq_true, if_false] at hfst
            have := congrArg List.length hfst
            simp only [List.length_map, List.length_append] at this
            rw [this]
            have := congrArg List.length hb
            simp only [List.length_map] at this
            simp [this]
          calc 1 < 2 := by omega
            _ = (objSet b k v).length := hlen2.symm
            _ ≤ (objAssign (objSet b k v) rest).length := objAssign_length_ge rest _

/-- Every payload `generateWorkflowSampleData` produces is either empty or a
single `data` wrapper merged with the flattened sample fields. -/
theorem gwsd_shape (E : List String) (spec : JsVal) (fuel : Nat) (e : Endpoint)
    (m : Option String) (nm : String) (u : List (String × JsVal))
    (h : generateWorkflowSampleData E spec fuel e m nm = some u) :
    u = [] ∨ ∃ s, u = objAssign [("data", JsVal.vobj s)] s := by
  unfold generateWorkflowSampleData at h
  split at h
  · cases h; exact Or.inl rfl
  · split at h
    · cases h; exact Or.inl rfl
    · split at h
      · cases h; exact Or.inl rfl
      · split at h
        · cases h
        · split at h
          · split at h
            · cases h; exact Or.inr ⟨_, rfl⟩
            · cases h
          · cases h; exact Or.inl rfl

/-- For generated payloads, the source's `length > 1` update test coincides
with the claim's "a field beyond the `data` wrapper" test. -/
theorem updateCond_iff (E : List String) (spec : JsVal) (fuel : Nat) (e : Endpoint)
    (m : Option String) (nm : String) (u : List (String × JsVal))
    (h : generateWorkflowSampleData E spec fuel e m nm = some u) :
    decide (u.length > 1) = u.any fun p => p.1 ≠ "data" := by
  have hiff : u.length > 1 ↔ (u.any fun p => p.1 ≠ "data") = true := by
    rcases gwsd_shape E spec fuel e m nm u h with rfl | ⟨s, rfl⟩
    · simp [objAssign]
    · exact objAssign_data_len_iff s [("data", JsVal.vobj s)] rfl
  by_cases hl : u.length > 1
  · rw [decide_eq_true hl, (hiff.mp hl).symm]
  · rw [decide_eq_false hl]
    cases hany : u.any fun p => p.1 ≠ "data" with
    | false => rfl
    | true => exact absurd (hiff.mpr hany) hl

/-- `updateMethodOf` is `some` exactly when the endpoint has `PUT` or
`PATCH`. -/
theorem updateMethodOf_isSome (e : Endpoint) :
    (updateMethodOf e).isSome
      = ((opGet e.operations "PUT").isSome || (opGet e.operations "PATCH").isSome) := by
  unfold updateMethodOf
  by_cases h : ((opGet e.operations "PUT").isSome
      || (opGet e.operations "PATCH").isSome) = true
  · rw [if_pos h, h]
    by_cases hp : (opGet e.operations "PUT").isSome = true
    · rw [if_pos hp]; rfl
    · rw [if_neg hp]; rfl
  · rw [if_neg h]
    rw [Bool.not_eq_true] at h
    rw [h]
    rfl

/-- Counterexample to claim C2 as stated: for the eligible `items` endpoint,
whose create operation declares no request body, the synthesized create step
carries only `saveToContext` — no flattened fields, no raw `data` object and
no `_dynamicForeignKeys` array. -/
theorem C2_counterexample :
    generateWorkflows (.vobj []) 50 [("items", itemsEndpoint)]
      = some [("items_crud_workflow", itemsWorkflow)]
    ∧ (∀ s ∈ itemsWorkflow.steps, s.action = "create_item" →
        s.args = some [("saveToContext", JsVal.vstr "created_item")])
    ∧ objGet [("saveToContext", JsVal.vstr "created_item")] "data" = none
    ∧ objGet [("saveToContext", JsVal.vstr "created_item")] "_dynamicForeignKeys"
        = none := by
  refine ⟨by decide, by decide, rfl, rfl⟩

/-- Claim C2 (amended): for every workflow synthesized over a duplicate-free
registry, the step signatures are exactly: first-seen-deduplicated
dependency-fetch steps, then create (`saveToContext` merged over the create
payload, with a `_dynamicForeignKeys` array — deduplicated by marker,
keeping first occurrences — exactly when dependencies were detected), then
list, then get, then update (only with `PUT`/`PATCH` present and a payload
field beyond the `data` wrapper), then delete. -/
theorem C2_step_signatures (spec : JsVal) (fuel : Nat)
    (endpoints : List (String × Endpoint)) (ws : List (String × Workflow))
    (n : String) (e : Endpoint) (w : Workflow)
    (createData updateData : List (String × JsVal))
    (hnodup : (endpoints.map Prod.fst).Nodup)
    (hgen : generateWorkflows spec fuel endpoints = some ws)
    (hmem : (n, e) ∈ endpoints)
    (helig : crudEligible e = true)
    (hw : wfGet ws (n ++ "_crud_workflow") = some w)
    (hcd : generateWorkflowSampleData (endpoints.map Prod.fst) spec fuel e
        (some "POST") n = some createData)
    (hud : generateWorkflowSampleData (endpoints.map Prod.fst) spec fuel e
        (updateMethodOf e) n = some updateData) :
    w.steps.map stepSig
      = specStepSigs n createData updateData (updateMethodOf e).isSome := by
  have hlook := (generateWorkflowsGo_lookup (endpoints.map Prod.fst) spec fuel
    endpoints [] ws hgen hnodup n e hmem).1
  rw [if_pos helig] at hlook
  have hbuild : buildCrudWorkflow (endpoints.map Prod.fst) spec fuel n e = some w :=
    hlook.symm.trans hw
  unfold buildCrudWorkflow at hbuild
  simp only [hcd, hud] at hbuild
  injection hbuild with hw2
  subst hw2
  have h1 : (buildDepSteps (analyzeForeignKeyDependencies createData) []).map stepSig
      = (firstSeenTargets (analyzeForeignKeyDependencies createData) []).map
          (fun t => ("list_" ++ t,
            some [("saveToContext", JsVal.vstr ("existing_" ++ t))])) := by
    have := depSteps_sig (analyzeForeignKeyDependencies createData) []
    simpa using this
  have h3 : (((opGet e.operations "PUT").isSome
        || (opGet e.operations "PATCH").isSome) && decide (updateData.length > 1))
      = ((updateMethodOf e).isSome && (updateData.any fun p => p.1 ≠ "data")) := by
    rw [updateMethodOf_isSome,
      updateCond_iff (endpoints.map Prod.fst) spec fuel e (updateMethodOf e) n
        updateData hud]
  simp only [specStepSigs, List.map_append]
  congr 1
  congr 1
  · congr 1
    congr 1
    congr 1
    simp only [List.map_cons, List.map_nil, stepSig]
    refine congrArg₂ _ ?_ rfl
    refine congrArg₂ _ rfl ?_
    refine congrArg _ ?_
    cases hdeps : analyzeForeignKeyDependencies createData with
    | nil => simp
    | cons d ds =>
        rw [if_pos (by simp), if_neg (by simp), ubm_eq_fsbm]
  · rw [apply_ite (List.map stepSig), h3]
    cases hcond : ((updateMethodOf e).isSome
        && (updateData.any fun p => p.1 ≠ "data")) with
    | true => simp [stepSig]
    | false => simp

set_option maxRecDepth 1000000 in
/-- Witness for C2 on the users+posts registry: the posts workflow's step
signatures match the amended specification (one `list_users` dependency
fetch, create with marker and a marker-deduplicated `_dynamicForeignKeys`,
list, get, delete — no update, since posts has neither `PUT` nor
`PATCH`). -/
theorem C2_step_signatures_witness :
    postsWorkflow.steps.map stepSig
      = specStepSigs "posts" postsCreateData [] (updateMethodOf postsEndpoint).isSome :=
  C2_step_signatures (.vobj []) 10 [("users", usersEndpoint), ("posts", postsEndpoint)]
    [("users_crud_workflow", usersWorkflow), ("posts_crud_workflow", postsWorkflow)]
    "posts" postsEndpoint postsWorkflow postsCreateData []
    (by decide) (by decide) (by decide) (by decide) (by decide) (by decide) (by decide)

set_option maxRecDepth 1000000 in
/-- The specification's users/posts scenario, end to end: the builder produces
exactly `postsWorkflow` for the posts endpoint (dependency fetch on users,
marker-bearing create with `_dynamicForeignKeys`, list, get, delete). -/
theorem posts_scenario :
    buildCrudWorkflow ["users", "posts"] (.vobj []) 10 "posts" postsEndpoint
      = some postsWorkflow := by
  simp only [buildCrudWorkflow,
    show updateMethodOf postsEndpoint = none from by decide,
    show generateWorkflowSampleData ["users", "posts"] (.vobj []) 10 postsEndpoint
      (some "POST") "posts" = some postsCreateData from by decide,
    show generateWorkflowSampleData ["users", "posts"] (.vobj []) 10 postsEndpoint
      none "posts" = some [] from by decide]
  decide

end APIBridge
